import Mathlib

/-!
Verification development for the gdown library (Go): URL resolution,
confirmation-page download loop, content cache with hash verification,
throttled writer, folder tree resolution and directory flattening.

The Go source is shallowly embedded: pure functions become Lean functions,
filesystem and network effects become explicit state passing over a small
state type, Go regexp uses over fixed patterns are embedded as explicit
character-list scanners with the same leftmost-match semantics, and Go's
`error` values become an inductive error type whose constructors mirror the
distinct `fmt.Errorf`/`errors.New` messages (rendered back to the exact
message strings by `GErr.render`).
-/

/-- Errors produced by the embedded code.  Each constructor corresponds to a
distinct error construction site in the source; `GErr.render` recovers the
exact Go message text. -/
inductive GErr where
  | fileURLRetrieval
  | invalidHashFormat (h : String)
  | unsupportedHashAlgo (a : String)
  | hashMismatch (actual expected : String)
  | fileOpenFailed (p : String)
  | hashMismatchForFile (p : String)
  | outOfFuel
  | other (msg : String)
deriving DecidableEq

/-- The message text Go attaches to each error (`errors.New` / `fmt.Errorf`). -/
def GErr.render : GErr → String
  | .fileURLRetrieval => "failed to retrieve file URL"
  | .invalidHashFormat h => "invalid hash format: " ++ h
  | .unsupportedHashAlgo a => "unsupported hash algorithm: " ++ a
  | .hashMismatch a e => "hash mismatch: actual " ++ a ++ ", expected " ++ e
  | .fileOpenFailed p => "open " ++ p
  | .hashMismatchForFile p => "hash mismatch for file " ++ p
  | .outOfFuel => "model artifact: recursion fuel exhausted"
  | .other m => m

/-- A Go `*url.URL` after a successful `url.Parse`: the hostname (as returned
by `u.Hostname()`), the path, and the decoded query parameters in order
(`url.Values` access via first-match, as `Values.Get` does). -/
structure GoUrl where
  host : String
  path : String
  query : List (String × String)
deriving DecidableEq

/-- Go `strings.HasPrefix`. -/
def goHasPrefix (s pre : String) : Bool :=
  pre.data.isPrefixOf s.data

/-- Go `strings.HasSuffix`. -/
def goHasSuffix (s suf : String) : Bool :=
  suf.data.isSuffixOf s.data

/-- `queryParams.Has(k)` of Go's `url.Values`. -/
def queryHas (u : GoUrl) (k : String) : Bool :=
  (u.query.find? (fun e => e.1 == k)).isSome

/-- `queryParams.Get(k)` of Go's `url.Values`: first value, or "" if absent. -/
def queryGet (u : GoUrl) (k : String) : String :=
  match u.query.find? (fun e => e.1 == k) with
  | some e => e.2
  | none => ""

/-- `IsGoogleDriveUrl` (src/unnamed/part_001:385-392): host is one of the two
provider hostnames. -/
def IsGoogleDriveUrl (u : GoUrl) : Bool :=
  u.host == "drive.google.com" || u.host == "docs.google.com"

/-- Lazy capture `(.*?)/(suf1|suf2|...)$` anchored at the end: the shortest
prefix of newline-free characters such that the remainder is exactly `/`
followed by one of the suffixes.  This is Go regexp's leftmost-shortest
semantics for a lazy group followed by an anchored alternation. -/
def lazyCaptureTo (sufs : List (List Char)) : List Char → Option (List Char)
  | [] => none
  | c :: rest =>
    if sufs.any (fun suf => c :: rest = '/' :: suf) then some []
    else if c = '\n' then none
    else match lazyCaptureTo sufs rest with
      | some cap => some (c :: cap)
      | none => none

/-- One path-template pattern `^<pre>(.*?)/(alt1|alt2|..)$`. -/
def matchIdPattern (pre : String) (sufs : List String) (path : List Char) :
    Option (List Char) :=
  if pre.data.isPrefixOf path then
    lazyCaptureTo (sufs.map String.data) (path.drop pre.data.length)
  else none

/-- One path-template pattern `^<pre1>[0-9]+<pre2>(.*?)/(alt1|alt2|..)$`
(the forms with a numeric user-index segment). -/
def matchIdPatternU (pre1 pre2 : String) (sufs : List String)
    (path : List Char) : Option (List Char) :=
  if pre1.data.isPrefixOf path then
    let r1 := path.drop pre1.data.length
    let ds := r1.takeWhile Char.isDigit
    if ds = [] then none
    else
      let r2 := r1.drop ds.length
      if pre2.data.isPrefixOf r2 then
        lazyCaptureTo (sufs.map String.data) (r2.drop pre2.data.length)
      else none
  else none

/-- The fixed ordered pattern list of `ParseUrl`
(src/unnamed/part_001:410-427); the first matching pattern wins. -/
def pathPatternId (path : String) : String :=
  let l := path.data
  let r :=
    matchIdPattern "/file/d/" ["edit", "view"] l <|>
    matchIdPatternU "/file/u/" "/d/" ["edit", "view"] l <|>
    matchIdPattern "/document/d/" ["edit", "htmlview", "view"] l <|>
    matchIdPatternU "/document/u/" "/d/" ["edit", "htmlview", "view"] l <|>
    matchIdPattern "/presentation/d/" ["edit", "htmlview", "view"] l <|>
    matchIdPatternU "/presentation/u/" "/d/" ["edit", "htmlview", "view"] l <|>
    matchIdPattern "/spreadsheets/d/" ["edit", "htmlview", "view"] l <|>
    matchIdPatternU "/spreadsheets/u/" "/d/" ["edit", "htmlview", "view"] l
  match r with
  | some cap => String.mk cap
  | none => ""

/-- `ParseUrl` (src/unnamed/part_001:395-432) over an already-parsed URL.
Returns (fileId, isDownloadLink, err); the third component is the error, which
is `none` on every branch reachable after a successful `url.Parse` (the `warn`
flag only controls a diagnostic print and does not affect the result). -/
def ParseUrl (u : GoUrl) (warn : Bool) : String × Bool × Option GErr :=
  let isGDrive := IsGoogleDriveUrl u
  let isDownloadLink := goHasSuffix u.path "/uc"
  if !isGDrive then ("", false, none)
  else if queryHas u "id" then (queryGet u "id", isDownloadLink, none)
  else (pathPatternId u.path, isDownloadLink, none)

/-- The capture-group prefix of the confirmation-link pattern:
`/uc?export=download`. -/
def ucLit : List Char := "/uc?export=download".data

/-- The full literal part of the Go pattern `href="(\/uc\?export=download[^"]+)"`
before the character class. -/
def anchorLit : List Char := "href=\"".data ++ ucLit

/-- Matching the confirmation-link pattern at the start of `l`: the literal
`href="/uc?export=download`, then one or more non-quote characters (greedy),
then a closing quote.  Returns the capture group (which starts at `/uc`). -/
def tryAnchor (l : List Char) : Option (List Char) :=
  if anchorLit.isPrefixOf l then
    let rest := l.drop anchorLit.length
    let cap := rest.takeWhile (fun c => c != '"')
    if cap = [] then none
    else if rest.dropWhile (fun c => c != '"') = [] then none
    else some (ucLit ++ cap)
  else none

/-- Leftmost-match search: try the pattern at every start position, earliest
first — the search order used by Go's `regexp.FindStringSubmatch`. -/
def scanFirst (t : List Char → Option (List Char)) : List Char → Option (List Char)
  | [] => t []
  | c :: rest =>
    match t (c :: rest) with
    | some r => some r
    | none => scanFirst t rest

/-- `strings.ReplaceAll(s, "&amp;", "&")`: leftmost, non-overlapping. -/
def replaceAmp : List Char → List Char
  | [] => []
  | '&' :: 'a' :: 'm' :: 'p' :: ';' :: rest => '&' :: replaceAmp rest
  | c :: rest => c :: replaceAmp rest

/-- `getUrlFromGDriveConfirmation` (src/unnamed/part_001:320-329): find the
confirmation anchor, qualify it with the provider host, undo `&amp;` escaping;
otherwise fail with `ErrFileURLRetrieval`. -/
def getUrlFromGDriveConfirmation (html : String) : Except GErr String :=
  match scanFirst tryAnchor html.data with
  | some cap => .ok (String.mk (replaceAmp ("https://docs.google.com".data ++ cap)))
  | none => .error .fileURLRetrieval

/-- Declarative reading of "an anchor whose href begins with the
export-download path prefix occurs in the body": somewhere in the text there
is `href="/uc?export=download`, then at least one non-quote character, then a
closing quote. -/
def hasConfirmAnchor (html : String) : Prop :=
  ∃ pre mid rest, html.data = pre ++ anchorLit ++ mid ++ '"' :: rest ∧
    mid ≠ [] ∧ '"' ∉ mid

/-- `sanitizeFilename` (src/unnamed/part_001:106-109):
`strings.ReplaceAll(name, string(os.PathSeparator), "_")`; the path separator
is `/` on the target platform, so single-character replacement is a character
map. -/
def sanitizeFilename (name : String) : String :=
  String.mk (name.data.map (fun c => if c = '/' then '_' else c))

/-- Go `filepath.Join` for the two-argument uses in this code base, modelled
without the final `Clean` normalization (no argument here contains `.` or `..`
segments produced by the code itself). -/
def joinPath (a b : String) : String :=
  if a = "" then b else if b = "" then a else a ++ "/" ++ b

/-- Go `path.Base`: "." for the empty path, trailing slashes stripped, "/" if
nothing remains, otherwise the last slash-separated element. -/
def pathBase (p : String) : String :=
  if p = "" then "."
  else
    let r := p.data.reverse.dropWhile (fun c => c == '/')
    if r = [] then "/" else String.mk (r.takeWhile (fun c => c != '/')).reverse

/-- The apostrophe character (code point 39). -/
def apos : Char := Char.ofNat 39

/-- The literal part of the Go pattern for the RFC 5987 extended filename
form, before the capture group (the key, an equals sign, the charset tag and
two apostrophes). -/
def extLit : List Char := "filename*=UTF-8".data ++ [apos, apos]

/-- Matching the extended-form pattern at the start of `l`: the literal, then
a greedy nonempty run of non-newline characters (the capture). -/
def tryExt (l : List Char) : Option (List Char) :=
  if extLit.isPrefixOf l then
    let cap := (l.drop extLit.length).takeWhile (fun c => c != '\n')
    if cap = [] then none else some cap
  else none

/-- The literal part of the Go pattern `attachment; filename="(.*?)"`. -/
def basicLit : List Char := "attachment; filename=\"".data

/-- Matching the basic-form pattern at the start of `l`: the literal, then a
lazy (shortest) possibly-empty run of non-newline characters up to a closing
quote. -/
def tryBasic (l : List Char) : Option (List Char) :=
  if basicLit.isPrefixOf l then
    let rest := l.drop basicLit.length
    let cap := rest.takeWhile (fun c => c != '"')
    if '\n' ∈ cap then none
    else if rest.dropWhile (fun c => c != '"') = [] then none
    else some cap
  else none

/-- A hexadecimal digit's value, as in Go's `unhex`. -/
def unhexDigit (c : Char) : Option Nat :=
  if '0' ≤ c ∧ c ≤ '9' then some (c.toNat - '0'.toNat)
  else if 'a' ≤ c ∧ c ≤ 'f' then some (c.toNat - 'a'.toNat + 10)
  else if 'A' ≤ c ∧ c ≤ 'F' then some (c.toNat - 'A'.toNat + 10)
  else none

/-- Go `url.QueryUnescape` at character level: `%XX` decodes to the character
with code `XX`, `+` decodes to a space, a malformed percent escape is an
error.  (Byte-level UTF-8 reassembly of multi-byte escapes is idealized to
one character per escape.) -/
def queryUnescape : List Char → Option (List Char)
  | [] => some []
  | '%' :: rest =>
    match rest with
    | h1 :: h2 :: rest2 =>
      match unhexDigit h1, unhexDigit h2 with
      | some a, some b =>
        match queryUnescape rest2 with
        | some out => some (Char.ofNat (16 * a + b) :: out)
        | none => none
      | _, _ => none
    | _ => none
  | '+' :: rest =>
    match queryUnescape rest with
    | some out => some (' ' :: out)
    | none => none
  | c :: rest =>
    match queryUnescape rest with
    | some out => some (c :: out)
    | none => none

/-- The second half of `getFilenameFromResponse`: the quoted basic form, then
the fixed generic name. -/
def basicOrDefault (cd : String) : String :=
  match scanFirst tryBasic cd.data with
  | some cap => sanitizeFilename (String.mk cap)
  | none => "downloaded_file"

/-- `getFilenameFromResponse` (src/unnamed/part_001:299-317): prefer the
RFC 5987 extended form (whose capture is percent-decoded; a decode failure
falls through), then the quoted basic form, then `downloaded_file`. -/
def getFilenameFromResponse (cd : String) : String :=
  if cd = "" then "downloaded_file"
  else
    match scanFirst tryExt cd.data with
    | some cap =>
      match queryUnescape cap with
      | some fn => sanitizeFilename (String.mk fn)
      | none => basicOrDefault cd
    | none => basicOrDefault cd

/-- Declarative reading of "the header contains the RFC 5987 extended
filename form": the literal followed by at least one non-newline character. -/
def hasExtForm (cd : String) : Prop :=
  ∃ pre c rest, cd.data = pre ++ extLit ++ c :: rest ∧ c ≠ '\n'

/-- Declarative reading of "the header contains the quoted basic filename
form": the literal, a newline-free and quote-free (possibly empty) run, and a
closing quote. -/
def hasBasicForm (cd : String) : Prop :=
  ∃ pre mid rest, cd.data = pre ++ basicLit ++ mid ++ '"' :: rest ∧
    '\n' ∉ mid ∧ '"' ∉ mid

/-- The destination-filename derivation of `Download`
(src/unnamed/part_001:256-268): an empty destination becomes the URL path's
basename; a destination naming an existing directory is joined with the
header-derived filename.  `stat p` is `none` when `p` does not exist and
`some isDir` otherwise. -/
def deriveOutput (stat : String → Option Bool) (urlPath cd output : String) :
    String :=
  let o1 := if output = "" then pathBase urlPath else output
  match stat o1 with
  | some true => joinPath o1 (getFilenameFromResponse cd)
  | _ => o1

/-- The parts of a Go `*http.Response` that `Download` inspects. -/
structure HttpResponse where
  contentType : String
  contentDisposition : String
  status : Nat
  body : String

/-- The retry loop of `Download` (src/unnamed/part_001:211-296).  `net` is the
transfer client (`none` models a transport error), `stat` the filesystem
probe used for the destination, `pathOf` the parsed path of a URL
(`url.Parse(...).Path`), and `origUrl` the originally requested URL.  `fuel`
bounds the recursion; `.error .outOfFuel` marks the runs on which the Go loop
has not yet finished.  Resume/range handling and the byte copy itself only
affect the request headers and the file contents, not the returned path, and
are abstracted away. -/
def downloadLoop (net : String → Option HttpResponse)
    (stat : String → Option Bool) (pathOf : String → String)
    (origUrl : String) : Nat → String → String → Except GErr String
  | 0, _, _ => .error .outOfFuel
  | fuel + 1, urlStr, output =>
    match net urlStr with
    | none => .error (.other "request failed")
    | some resp =>
      if goHasPrefix resp.contentType "text/html" then
        match getUrlFromGDriveConfirmation resp.body with
        | .error e => .error e
        | .ok newUrl =>
          if origUrl = newUrl then .ok output
          else downloadLoop net stat pathOf origUrl fuel newUrl output
      else if 400 ≤ resp.status then .error (.other "http error")
      else .ok (deriveOutput stat (pathOf urlStr) resp.contentDisposition output)

/-- `Download` entry: the loop starts with the requested URL as `origUrl`. -/
def Download (net : String → Option HttpResponse)
    (stat : String → Option Bool) (pathOf : String → String)
    (urlStr output : String) (fuel : Nat) : Except GErr String :=
  downloadLoop net stat pathOf urlStr fuel urlStr output

/-- The tracked filesystem: existing regular files with their contents
(directories are not tracked — `fileExists` in the source returns true only
for regular files). -/
def getFile (fs : List (String × String)) (p : String) : Option String :=
  match fs.find? (fun e => e.1 == p) with
  | some e => some e.2
  | none => none

/-- Create or overwrite a regular file. -/
def setFile (fs : List (String × String)) (p content : String) :
    List (String × String) :=
  (p, content) :: fs.filter (fun e => !(e.1 == p))

/-- Remove a regular file. -/
def removeFile (fs : List (String × String)) (p : String) :
    List (String × String) :=
  fs.filter (fun e => !(e.1 == p))

/-- `fileExists` (src/unnamed/part_001:100-104). -/
def fileExists (fs : List (String × String)) (p : String) : Bool :=
  (getFile fs p).isSome

/-- `strings.SplitN(s, sep, 2)` on characters: `none` when the separator does
not occur (Go then yields a single part, which `assertFileHash` rejects),
otherwise the parts before and after the first separator. -/
def splitFirst (sep : Char) : List Char → Option (List Char × List Char)
  | [] => none
  | c :: rest =>
    if c = sep then some ([], rest)
    else
      match splitFirst sep rest with
      | some p => some (c :: p.1, p.2)
      | none => none

/-- The cache-key substitution of `CachedDownload`
(src/unnamed/part_001:338-342): `strings.NewReplacer` over the four
single-character patterns, i.e. a character-wise substitution. -/
def sanitizeUrlKey (u : String) : String :=
  String.mk (u.data.flatMap (fun c =>
    if c = '/' then "-SLASH-".data
    else if c = ':' then "-COLON-".data
    else if c = '=' then "-EQUAL-".data
    else if c = '?' then "-QUESTION-".data
    else [c]))

/-- The cache path used by `CachedDownload`: derived from the URL when no
explicit output path is given. -/
def cacheOutPath (cacheRoot urlStr outputPath : String) : String :=
  if outputPath = "" then joinPath cacheRoot (sanitizeUrlKey urlStr)
  else outputPath

/-- `MD5Sum` (src/unnamed/part_001:157-169) over the tracked filesystem;
`md5` is the digest function (hex digest of a file's content). -/
def MD5Sum (md5 : String → String) (fs : List (String × String))
    (filename : String) : Except GErr String :=
  match getFile fs filename with
  | none => .error (.fileOpenFailed filename)
  | some content => .ok (md5 content)

/-- `assertFileHash` (src/unnamed/part_001:171-196), returning Go's
`(bool, error)` pair: `(true, nil)` exactly on a match.  `quiet` only
controls a diagnostic print. -/
def assertFileHash (md5 : String → String) (fs : List (String × String))
    (filename expectedHash : String) (quiet : Bool) : Bool × Option GErr :=
  match splitFirst ':' expectedHash.data with
  | none => (false, some (.invalidHashFormat expectedHash))
  | some parts =>
    let algo := String.mk parts.1
    let expected := String.mk parts.2
    if algo = "md5" then
      match MD5Sum md5 fs filename with
      | .error e => (false, some e)
      | .ok actual =>
        if actual = expected then (true, none)
        else (false, some (.hashMismatch actual expected))
    else (false, some (.unsupportedHashAlgo algo))

/-- State threaded through the caching and folder operations: the tracked
regular files and a count of network fetches performed. -/
structure DState where
  fs : List (String × String)
  fetches : Nat
deriving DecidableEq

/-- The filesystem after `CachedDownload`'s download path: `Download` writes
the temporary file, `os.Rename` moves it to the final cache path, and the
deferred `os.RemoveAll` drops the temporary directory. -/
def renamedFs (fs : List (String × String)) (cacheRoot out content : String) :
    List (String × String) :=
  setFile (removeFile (setFile fs (joinPath cacheRoot "dl-tmp/dl") content)
    (joinPath cacheRoot "dl-tmp/dl")) out content

/-- The download-verify-postprocess tail of `CachedDownload`
(src/unnamed/part_001:354-378), entered when the cache misses.  `net` stands
for the inner `Download` call: `none` is a failed download, `some content`
the fetched bytes; each entry increments the fetch counter.  `post` is the
postprocess callback (its own filesystem effects are outside the tracked
state). -/
def cachedFetch (md5 : String → String) (net : String → Option String)
    (cacheRoot urlStr outputPath hash : String) (quiet : Bool)
    (post : Option (String → Except GErr Unit)) (s : DState) :
    Except GErr String × DState :=
  match net urlStr with
  | none => (.error (.other "download failed"), ⟨s.fs, s.fetches + 1⟩)
  | some content =>
    if hash ≠ "" ∧ assertFileHash md5
        (renamedFs s.fs cacheRoot (cacheOutPath cacheRoot urlStr outputPath) content)
        (cacheOutPath cacheRoot urlStr outputPath) hash quiet ≠ (true, none) then
      (.error (.hashMismatchForFile (cacheOutPath cacheRoot urlStr outputPath)),
        ⟨renamedFs s.fs cacheRoot (cacheOutPath cacheRoot urlStr outputPath) content,
          s.fetches + 1⟩)
    else
      match post with
      | none =>
        (.ok (cacheOutPath cacheRoot urlStr outputPath),
          ⟨renamedFs s.fs cacheRoot (cacheOutPath cacheRoot urlStr outputPath) content,
            s.fetches + 1⟩)
      | some pp =>
        match pp (cacheOutPath cacheRoot urlStr outputPath) with
        | .ok _ =>
          (.ok (cacheOutPath cacheRoot urlStr outputPath),
            ⟨renamedFs s.fs cacheRoot (cacheOutPath cacheRoot urlStr outputPath) content,
              s.fetches + 1⟩)
        | .error e =>
          (.error e,
            ⟨renamedFs s.fs cacheRoot (cacheOutPath cacheRoot urlStr outputPath) content,
              s.fetches + 1⟩)

/-- `CachedDownload` (src/unnamed/part_001:335-379): return the cache path
immediately when the file exists and no hash was requested, or when it exists
and the requested hash matches; otherwise download through `cachedFetch`. -/
def CachedDownload (md5 : String → String) (net : String → Option String)
    (cacheRoot urlStr outputPath hash : String) (quiet : Bool)
    (post : Option (String → Except GErr Unit)) (s : DState) :
    Except GErr String × DState :=
  if fileExists s.fs (cacheOutPath cacheRoot urlStr outputPath) ∧ hash = "" then
    (.ok (cacheOutPath cacheRoot urlStr outputPath), s)
  else if fileExists s.fs (cacheOutPath cacheRoot urlStr outputPath) ∧ hash ≠ "" ∧
      (assertFileHash md5 s.fs (cacheOutPath cacheRoot urlStr outputPath) hash quiet).1 = true then
    (.ok (cacheOutPath cacheRoot urlStr outputPath), s)
  else
    cachedFetch md5 net cacheRoot urlStr outputPath hash quiet post s

/-- `ThrottledWriter` (src/unnamed/part_001:68-82): the byte-rate ceiling,
the transfer start instant (nanoseconds), and the running byte count.  The
claims concern positive configured rates, so the int64 fields are carried as
naturals. -/
structure ThrottledWriter where
  speed : Nat
  start : Nat
  written : Nat

/-- `NewThrottledWriter` (src/unnamed/part_001:75-82) at start instant
`start`. -/
def NewThrottledWriter (speed start : Nat) : ThrottledWriter :=
  ⟨speed, start, 0⟩

def nsPerSecond : Nat := 1000000000

/-- One `ThrottledWriter.Write` (src/unnamed/part_001:84-94): `now` is the
wall clock (ns) when the underlying write finished; the result is the updated
writer and the clock after the inserted sleep.  The Go expression
`time.Duration(float64(written)/float64(speed)) * time.Second` truncates the
quotient to a whole number of seconds before scaling — `written / speed`
in natural division, then `* nsPerSecond` (exact-real float semantics; the
concrete instances used in the theorems are exactly representable). -/
def throttledWrite (tw : ThrottledWriter) (n : Nat) (now : Nat) :
    ThrottledWriter × Nat :=
  let written := tw.written + n
  let elapsed := now - tw.start
  let expected := written / tw.speed * nsPerSecond
  let now2 := if elapsed < expected then now + (expected - elapsed) else now
  (⟨tw.speed, tw.start, written⟩, now2)

/-- A whole transfer through the throttled writer: `chunks` lists each
write's size and the wall-clock time the underlying write itself took;
returns the final writer and the final clock. -/
def runTransfer (speed start : Nat) (chunks : List (Nat × Nat)) :
    ThrottledWriter × Nat :=
  chunks.foldl (fun acc c => throttledWrite acc.1 c.1 (acc.2 + c.2))
    (NewThrottledWriter speed start, start)

def totalBytes (chunks : List (Nat × Nat)) : Nat :=
  (chunks.map Prod.fst).sum

/- `GoogleDriveFile` (src/unnamed/part_001:530-535): a Drive node with its
ordered children.  The children list is carried by the companion inductive
`GDList` so that recursion and induction over the tree are structural. -/
mutual
/-- A Drive node: id, display name, mime type, ordered children. -/
inductive GDriveFile where
  | mk (id name typ : String) (children : GDList)
inductive GDList where
  | nil
  | cons (head : GDriveFile) (tail : GDList)
end

def GDriveFile.id : GDriveFile → String
  | ⟨i, _, _, _⟩ => i

def GDriveFile.name : GDriveFile → String
  | ⟨_, n, _, _⟩ => n

def GDriveFile.typ : GDriveFile → String
  | ⟨_, _, t, _⟩ => t

def GDriveFile.children : GDriveFile → GDList
  | ⟨_, _, _, c⟩ => c

def folderMime : String := "application/vnd.google-apps.folder"

/-- `GoogleDriveFile.IsFolder` (src/unnamed/part_001:537-539). -/
def GDriveFile.IsFolder (f : GDriveFile) : Bool :=
  f.typ == folderMime

def GDList.length : GDList → Nat
  | .nil => 0
  | .cons _ t => t.length + 1

def GDList.toList : GDList → List GDriveFile
  | .nil => []
  | .cons h t => h :: t.toList

mutual
/-- Number of nodes in the tree. -/
def GDriveFile.size : GDriveFile → Nat
  | ⟨_, _, _, cs⟩ => 1 + GDList.sizeList cs
def GDList.sizeList : GDList → Nat
  | .nil => 0
  | .cons h t => GDriveFile.size h + GDList.sizeList t
end

/- Well-formedness of a resolved tree: a node whose mime type is not the
folder sentinel carries no children (which is how
`downloadAndParseGoogleDriveLink` builds leaves). -/
mutual
/-- Node well-formedness: leaves carry no children. -/
def GDriveFile.wfb : GDriveFile → Bool
  | ⟨_, _, t, cs⟩ =>
    (t == folderMime || (match cs with | .nil => true | .cons _ _ => false)) &&
      GDList.wfbList cs
def GDList.wfbList : GDList → Bool
  | .nil => true
  | .cons h t => GDriveFile.wfb h && GDList.wfbList t
end

/-- One row of the decoded folder manifest: `[id, ?, name, mimeType, ...]`
(src/unnamed/part_001:612-628). -/
structure RemoteRow where
  id : String
  name : String
  typ : String

/-- The outcome of fetching and parsing one folder page
(`parseGoogleDriveFile`): the title-derived folder name and the manifest
rows.  Fetch or parse failures are the `Except.error` side of `net`. -/
structure RemotePage where
  name : String
  rows : List RemoteRow

def MAX_NUMBER_FILES : Nat := 50

def folderUrlBase : String := "https://drive.google.com/drive/folders/"

/-- The language-hint rewrite at the top of `downloadAndParseGoogleDriveLink`
(src/unnamed/part_001:634-640); `gd` stands for the string-level
`IsGoogleDriveUrl` test. -/
def addHl (gd : String → Bool) (u : String) : String :=
  if gd u then (if u.data.contains '?' then u ++ "&hl=en" else u ++ "?hl=en")
  else u

/-- The child-processing loop of `downloadAndParseGoogleDriveLink`
(src/unnamed/part_001:658-680), parameterized by the resolver `sub` used for
subfolder rows: non-folder rows become leaves, folder rows recurse through
`sub` on the subfolder URL; the first error aborts. -/
def resolveRowsWith (sub : String → Except GErr GDriveFile) :
    List RemoteRow → Except GErr GDList
  | [] => .ok .nil
  | r :: rest =>
    if r.typ ≠ folderMime then
      match resolveRowsWith sub rest with
      | .error e => .error e
      | .ok cs => .ok (.cons (GDriveFile.mk r.id r.name r.typ .nil) cs)
    else
      match sub (folderUrlBase ++ r.id) with
      | .error e => .error e
      | .ok subF =>
        match resolveRowsWith sub rest with
        | .error e => .error e
        | .ok cs => .ok (.cons subF cs)

/-- `downloadAndParseGoogleDriveLink` (src/unnamed/part_001:633-685): append
the language hint, fetch and parse the page, resolve all child rows, and fail
when exactly `MAX_NUMBER_FILES` direct children were produced and
`remainingOk` is not set; otherwise return the node (whose id is
`path.Base` of the fetched URL and whose name comes from the page title).
`fuel` bounds the recursion depth; `.error .outOfFuel` marks runs on which
the Go recursion has not yet finished. -/
def downloadAndParseGoogleDriveLink (gd : String → Bool)
    (net : String → Except GErr RemotePage) (quiet remainingOk : Bool) :
    Nat → String → Except GErr GDriveFile
  | 0, _ => .error .outOfFuel
  | fuel + 1, urlStr =>
    let u := addHl gd urlStr
    match net u with
    | .error e => .error e
    | .ok page =>
      match resolveRowsWith
          (fun su => downloadAndParseGoogleDriveLink gd net quiet remainingOk fuel su)
          page.rows with
      | .error e => .error e
      | .ok cs =>
        if cs.length == MAX_NUMBER_FILES && !remainingOk then
          .error (.other "folder has more than 50 files")
        else .ok (GDriveFile.mk (pathBase u) page.name folderMime cs)

/-- The row resolution performed inside a page fetched with `fuel + 1` fuel:
subfolders are resolved with `fuel` remaining. -/
def resolveRows (gd : String → Bool) (net : String → Except GErr RemotePage)
    (quiet remainingOk : Bool) (fuel : Nat) (rows : List RemoteRow) :
    Except GErr GDList :=
  resolveRowsWith
    (fun su => downloadAndParseGoogleDriveLink gd net quiet remainingOk fuel su)
    rows

/-- `FileToDownload` (src/unnamed/part_001:687-692). -/
structure FileToDownload where
  id : String
  path : String
  localPath : String
deriving DecidableEq

/- `getDirectoryStructure` (src/unnamed/part_001:694-710): depth-first
pre-order flattening; a folder child contributes a placeholder entry with an
empty id and is recursed into immediately; a file child contributes a leaf
entry with its id. -/
mutual
/-- Flatten one node (the root itself emits nothing). -/
def getDirectoryStructure : GDriveFile → String → List FileToDownload
  | ⟨_, _, _, cs⟩, prevPath => gdsList cs prevPath
def gdsList : GDList → String → List FileToDownload
  | .nil, _ => []
  | .cons child rest, prevPath =>
    let safeName := sanitizeFilename child.name
    if child.IsFolder then
      let newPath := joinPath prevPath safeName
      ⟨"", newPath, newPath⟩ ::
        (getDirectoryStructure child newPath ++ gdsList rest prevPath)
    else
      ⟨child.id, joinPath prevPath safeName, ""⟩ :: gdsList rest prevPath
end

/- `getDirectoryStructure` with ghost annotations: each emitted entry is
paired with the child node it came from and the list of directory-entry
paths of its ancestor folders below the walk's root. -/
mutual
/-- Annotated flattening of one node. -/
def flattenAnn : GDriveFile → String → List String →
    List (FileToDownload × GDriveFile × List String)
  | ⟨_, _, _, cs⟩, prevPath, anc => flattenAnnList cs prevPath anc
def flattenAnnList : GDList → String → List String →
    List (FileToDownload × GDriveFile × List String)
  | .nil, _, _ => []
  | .cons child rest, prevPath, anc =>
    let safeName := sanitizeFilename child.name
    if child.IsFolder then
      let newPath := joinPath prevPath safeName
      (⟨"", newPath, newPath⟩, child, anc) ::
        (flattenAnn child newPath (anc ++ [newPath]) ++
          flattenAnnList rest prevPath anc)
    else
      (⟨child.id, joinPath prevPath safeName, ""⟩, child, anc) ::
        flattenAnnList rest prevPath anc
end

/-- `FileInfo` (src/unnamed/part_001:715-720). -/
structure FileInfo where
  id : String
  path : String
  downloadURL : String
  isFolder : Bool
deriving DecidableEq

/-- The `FileInfo` construction loop of `ListFolder`
(src/unnamed/part_001:746-759). -/
def mkFileInfos (files : List FileToDownload) : List FileInfo :=
  files.map (fun f =>
    if f.id = "" then ⟨f.id, f.path, "", true⟩
    else ⟨f.id, f.path, "https://drive.google.com/uc?id=" ++ f.id, false⟩)

/-- `ListFolder` (src/unnamed/part_001:724-761): exactly one of `urlStr` and
`id` must be given; an id is turned into the canonical folder URL.  `resolve`
stands for the network-touching `downloadAndParseGoogleDriveLink` call (it
receives the state and may change it). -/
def ListFolder (resolve : String → DState → Except GErr GDriveFile × DState)
    (urlStr id : String) (s : DState) :
    Except GErr (List FileInfo) × DState :=
  if (id = "" ∧ urlStr = "") ∨ (id ≠ "" ∧ urlStr ≠ "") then
    (.error (.other "either url or id must be specified"), s)
  else
    let u := if id ≠ "" then folderUrlBase ++ id else urlStr
    match resolve u s with
    | (.error e, s1) => (.error e, s1)
    | (.ok g, s1) => (.ok (mkFileInfos (getDirectoryStructure g "")), s1)

/-- `DownloadFolder` (src/unnamed/part_001:767-832): same argument check and
URL derivation as `ListFolder`, then the per-file download loop over the
flattened structure.  `dl` stands for the inner `Download` call (file URL and
local path); directory entries only create directories (untracked). -/
def DownloadFolder (resolve : String → DState → Except GErr GDriveFile × DState)
    (dl : String → String → DState → Except GErr String × DState)
    (cwd : String) (resume : Bool) (urlStr id output : String) (s : DState) :
    Except GErr (List String) × DState :=
  if (id = "" ∧ urlStr = "") ∨ (id ≠ "" ∧ urlStr ≠ "") then
    (.error (.other "either url or id must be specified"), s)
  else
    let u := if id ≠ "" then folderUrlBase ++ id else urlStr
    match resolve u s with
    | (.error e, s1) => (.error e, s1)
    | (.ok g, s1) =>
      let files := getDirectoryStructure g ""
      let out1 := if output = "" then cwd ++ "/" else output
      let rootDir := if goHasSuffix out1 "/" then joinPath out1 g.name else out1
      files.foldl (fun acc f =>
        match acc with
        | (.error e, st) => (.error e, st)
        | (.ok paths, st) =>
          let localPath := joinPath rootDir f.path
          if f.id = "" then (.ok paths, st)
          else if resume ∧ fileExists st.fs localPath = true then
            (.ok (paths ++ [localPath]), st)
          else
            match dl ("https://drive.google.com/uc?id=" ++ f.id) localPath st with
            | (.error e, st1) => (.error e, st1)
            | (.ok downloaded, st1) => (.ok (paths ++ [downloaded]), st1))
        (.ok [], s1)

deriving instance DecidableEq for Except
deriving instance DecidableEq for GDriveFile
deriving instance DecidableEq for GDList

/-- A list of `n` identical plain-file leaves, used in concrete instances. -/
def gdRep : Nat → GDList
  | 0 => .nil
  | n + 1 => .cons (GDriveFile.mk "fid" "f.txt" "text/plain" .nil) (gdRep n)

/-- Concrete sample tree: a plain file inside a subfolder. -/
def fileW1 : GDriveFile := .mk "f1" "a.txt" "text/plain" .nil

/-- Concrete sample tree: a plain file at the top level. -/
def fileW2 : GDriveFile := .mk "f2" "b.txt" "text/plain" .nil

/-- Concrete sample tree: the subfolder. -/
def subW : GDriveFile := .mk "s" "Sub" folderMime (.cons fileW1 .nil)

/-- Concrete sample tree: the root folder. -/
def rootW : GDriveFile := .mk "r" "Root" folderMime (.cons subW (.cons fileW2 .nil))

-- ===================================================================
-- Theorems
-- ===================================================================

theorem takeWhile_middle (p : Char → Bool) (l1 : List Char) (c : Char)
    (l2 : List Char) (h1 : ∀ x ∈ l1, p x = true) (h2 : p c = false) :
    (l1 ++ c :: l2).takeWhile p = l1 ∧ (l1 ++ c :: l2).dropWhile p = c :: l2 := by
  induction l1 with
  | nil => simp [List.takeWhile, List.dropWhile, h2]
  | cons a t ih =>
    have ha : p a = true := h1 a (by simp)
    have ih2 := ih (fun x hx => h1 x (by simp [hx]))
    simp [List.takeWhile, List.dropWhile, ha, ih2.1, ih2.2]

theorem dropWhile_cons_false (p : Char → Bool) :
    ∀ (l : List Char) (c : Char) (t : List Char),
      l.dropWhile p = c :: t → p c = false := by
  intro l
  induction l with
  | nil => intro c t h; simp [List.dropWhile] at h
  | cons a l ih =>
    intro c t h
    cases hpa : p a with
    | true =>
      simp [List.dropWhile, hpa] at h
      exact ih c t h
    | false =>
      simp [List.dropWhile, hpa] at h
      rw [← h.1]
      exact hpa

theorem tryAnchor_some (l cap : List Char) (h : tryAnchor l = some cap) :
    ∃ mid rest, l = anchorLit ++ mid ++ '"' :: rest ∧ mid ≠ [] ∧
      '"' ∉ mid ∧ cap = ucLit ++ mid := by
  unfold tryAnchor at h
  by_cases hp : anchorLit.isPrefixOf l
  · rw [if_pos hp] at h
    rw [List.isPrefixOf_iff_prefix] at hp
    obtain ⟨t, ht⟩ := hp
    subst ht
    rw [List.drop_left] at h
    set mid := t.takeWhile (fun c => c != '"') with hmid
    by_cases hm : mid = []
    · simp [← hmid, hm] at h
    · rw [if_neg hm] at h
      cases hd : t.dropWhile (fun c => c != '"') with
      | nil => simp [← hmid, hd] at h
      | cons c t2 =>
        rw [hd, if_neg (by simp)] at h
        have hc : c = '"' := by
          have := dropWhile_cons_false (fun c => c != '"') t c t2 hd
          simpa using this
        have hsplit : mid ++ c :: t2 = t := by
          rw [hmid, ← hd]
          exact List.takeWhile_append_dropWhile (fun c => c != '"') t
        refine ⟨mid, t2, ?_, hm, ?_, ?_⟩
        · rw [← hsplit, hc]
          simp
        · intro hmem
          have := List.mem_takeWhile_imp (hmid ▸ hmem)
          simp at this
        · rw [hmid]
          exact (Option.some.inj h).symm
  · rw [if_neg hp] at h
    exact absurd h (by simp)

theorem tryAnchor_complete (mid rest : List Char) (hm : mid ≠ [])
    (hq : '"' ∉ mid) :
    tryAnchor (anchorLit ++ mid ++ '"' :: rest) = some (ucLit ++ mid) := by
  have hpre : anchorLit.isPrefixOf (anchorLit ++ mid ++ '"' :: rest) := by
    rw [List.isPrefixOf_iff_prefix]
    exact ⟨mid ++ '"' :: rest, by simp⟩
  have hmidall : ∀ x ∈ mid, (x != '"') = true := by
    intro x hx
    simp only [bne_iff_ne, ne_eq]
    intro hxq; exact hq (hxq ▸ hx)
  have htw := takeWhile_middle (fun c => c != '"') mid '"' rest hmidall (by simp)
  unfold tryAnchor
  rw [if_pos hpre]
  simp only [List.append_assoc] at htw ⊢
  rw [List.drop_left, htw.1, htw.2, if_neg hm, if_neg (by simp)]

theorem scanFirst_some (t : List Char → Option (List Char)) :
    ∀ (l r : List Char), scanFirst t l = some r →
      ∃ pre suf, l = pre ++ suf ∧ t suf = some r := by
  intro l
  induction l with
  | nil => intro r h; exact ⟨[], [], by simp, h⟩
  | cons c rest ih =>
    intro r h
    unfold scanFirst at h
    cases ht : t (c :: rest) with
    | some r2 =>
      rw [ht] at h
      exact ⟨[], c :: rest, by simp, ht ▸ h⟩
    | none =>
      rw [ht] at h
      obtain ⟨pre, suf, heq, hsuf⟩ := ih r h
      exact ⟨c :: pre, suf, by simp [heq], hsuf⟩

theorem scanFirst_isSome (t : List Char → Option (List Char)) :
    ∀ (pre suf r : List Char), t suf = some r →
      (scanFirst t (pre ++ suf)).isSome = true := by
  intro pre
  induction pre with
  | nil =>
    intro suf r h
    cases suf with
    | nil => simp [scanFirst, h]
    | cons c rest => simp [scanFirst, h]
  | cons c pre ih =>
    intro suf r h
    show (scanFirst t (c :: (pre ++ suf))).isSome = true
    unfold scanFirst
    cases ht : t (c :: (pre ++ suf)) with
    | some r2 => simp
    | none => exact ih suf r h

/-- Claim C3: given an HTML body, the confirmation-page resolver returns the
fully qualified URL (provider host prepended to the anchor href that begins
with the export-download path prefix, `&amp;` undone) when such an anchor
exists, and fails with the file-URL-retrieval error when no such anchor
exists. -/
theorem C3_confirmation_page_resolver (html : String) :
    (hasConfirmAnchor html →
      ∃ cap pre mid rest,
        scanFirst tryAnchor html.data = some cap ∧
        html.data = pre ++ anchorLit ++ mid ++ '"' :: rest ∧
        mid ≠ [] ∧ '"' ∉ mid ∧ cap = ucLit ++ mid ∧
        getUrlFromGDriveConfirmation html =
          .ok (String.mk (replaceAmp ("https://docs.google.com".data ++ cap)))) ∧
    (¬ hasConfirmAnchor html →
      getUrlFromGDriveConfirmation html = .error .fileURLRetrieval) := by
  constructor
  · intro h
    obtain ⟨pre, mid, rest, heq, hm, hq⟩ := h
    have htry := tryAnchor_complete mid rest hm hq
    have hs : (scanFirst tryAnchor html.data).isSome = true := by
      have : html.data = pre ++ (anchorLit ++ mid ++ '"' :: rest) := by
        simp [heq]
      rw [this]
      exact scanFirst_isSome tryAnchor pre _ _ htry
    obtain ⟨cap, hcap⟩ := Option.isSome_iff_exists.1 hs
    obtain ⟨pre2, suf2, heq2, hsuf2⟩ := scanFirst_some tryAnchor html.data cap hcap
    obtain ⟨mid2, rest2, hdec, hm2, hq2, hcap2⟩ := tryAnchor_some suf2 cap hsuf2
    refine ⟨cap, pre2, mid2, rest2, hcap, ?_, hm2, hq2, hcap2, ?_⟩
    · rw [heq2, hdec]; simp
    · unfold getUrlFromGDriveConfirmation
      rw [hcap]
  · intro h
    cases hscan : scanFirst tryAnchor html.data with
    | some cap =>
      exfalso
      obtain ⟨pre, suf, heq, hsuf⟩ := scanFirst_some tryAnchor html.data cap hscan
      obtain ⟨mid, rest, hdec, hm, hq, _⟩ := tryAnchor_some suf cap hsuf
      exact h ⟨pre, mid, rest, by rw [heq, hdec]; simp, hm, hq⟩
    | none =>
      unfold getUrlFromGDriveConfirmation
      rw [hscan]

/-- Witness for C3: a concrete body containing a confirmation anchor, and one
without. -/
theorem C3_confirmation_page_resolver_witness :
    (hasConfirmAnchor "<a href=\"/uc?export=download&amp;id=X\">go</a>" ∧
      getUrlFromGDriveConfirmation "<a href=\"/uc?export=download&amp;id=X\">go</a>" =
        .ok "https://docs.google.com/uc?export=download&id=X") ∧
    getUrlFromGDriveConfirmation "<p>quota exceeded</p>" = .error .fileURLRetrieval := by
  have hanchor : hasConfirmAnchor "<a href=\"/uc?export=download&amp;id=X\">go</a>" := by
    refine ⟨"<a ".data, "&amp;id=X".data, ">go</a>".data, ?_, by decide, by decide⟩
    decide
  refine ⟨⟨hanchor, ?_⟩, ?_⟩
  · obtain ⟨cap, pre, mid, rest, hscan, heq, hm, hq, hcap, hres⟩ :=
      (C3_confirmation_page_resolver "<a href=\"/uc?export=download&amp;id=X\">go</a>").1 hanchor
    rw [hres]
    have : scanFirst tryAnchor "<a href=\"/uc?export=download&amp;id=X\">go</a>".data =
        some "/uc?export=download&amp;id=X".data := by decide
    rw [this] at hscan
    cases hscan
    have hstr : String.mk (replaceAmp
        ("https://docs.google.com".data ++ "/uc?export=download&amp;id=X".data)) =
        "https://docs.google.com/uc?export=download&id=X" := by decide
    rw [hstr]
  · exact (C3_confirmation_page_resolver "<p>quota exceeded</p>").2 (by
      rintro ⟨pre, mid, rest, heq, hm, hq⟩
      have : ('h' : Char) ∈ "<p>quota exceeded</p>".data := by
        rw [heq]
        simp [anchorLit, ucLit]
      revert this
      decide)

/-- Claim C1: for every URL whose host is drive.google.com or docs.google.com
and which carries an `id` query parameter, ParseUrl returns exactly that
parameter's value as the identifier (independent of the path) and a nil
error; and for every URL whose host is neither of those hostnames, ParseUrl
returns an empty identifier and a nil error. -/
theorem C1_parse_url_id_and_foreign_host (u : GoUrl) (warn : Bool) :
    (IsGoogleDriveUrl u = true → queryHas u "id" = true →
      (ParseUrl u warn).1 = queryGet u "id" ∧ (ParseUrl u warn).2.2 = none) ∧
    (IsGoogleDriveUrl u = false →
      ParseUrl u warn = ("", false, none)) := by
  constructor
  · intro hg hid
    simp [ParseUrl, hg, hid]
  · intro hg
    simp [ParseUrl, hg]

/-- Witness for C1 at concrete URLs: a drive.google.com URL with an `id`
query parameter, and a URL with a foreign host. -/
theorem C1_parse_url_id_and_foreign_host_witness :
    (IsGoogleDriveUrl ⟨"drive.google.com", "/unusual/path", [("id", "ABC")]⟩ = true ∧
      queryHas ⟨"drive.google.com", "/unusual/path", [("id", "ABC")]⟩ "id" = true ∧
      (ParseUrl ⟨"drive.google.com", "/unusual/path", [("id", "ABC")]⟩ false).1 = "ABC") ∧
    (IsGoogleDriveUrl ⟨"example.com", "/file/d/X/view", []⟩ = false ∧
      ParseUrl ⟨"example.com", "/file/d/X/view", []⟩ true = ("", false, none)) := by
  refine ⟨⟨by decide, by decide, ?_⟩, ⟨by decide, ?_⟩⟩
  · have h := (C1_parse_url_id_and_foreign_host
      ⟨"drive.google.com", "/unusual/path", [("id", "ABC")]⟩ false).1
      (by decide) (by decide)
    exact h.1.trans (by decide)
  · exact (C1_parse_url_id_and_foreign_host
      ⟨"example.com", "/file/d/X/view", []⟩ true).2 (by decide)

/-- Claim C2: whenever the URL rewritten from a confirmation page equals the
originally requested URL, Download stops looping and returns the destination,
issuing no further request: the result is `.ok output` for every positive
amount of remaining fuel, independent of anything `net` would answer
elsewhere. -/
theorem C2_confirmation_loop_stops
    (net : String → Option HttpResponse) (stat : String → Option Bool)
    (pathOf : String → String) (origUrl urlStr output : String) (fuel : Nat)
    (resp : HttpResponse) (hnet : net urlStr = some resp)
    (hct : goHasPrefix resp.contentType "text/html" = true)
    (hconf : getUrlFromGDriveConfirmation resp.body = .ok origUrl) :
    downloadLoop net stat pathOf origUrl (fuel + 1) urlStr output = .ok output := by
  unfold downloadLoop
  rw [hnet]
  simp only [hct, if_true]
  rw [hconf]
  simp

/-- Witness for C2: a concrete network whose confirmation page rewrites back
to the originally requested URL. -/
theorem C2_confirmation_loop_stops_witness :
    ((fun _ : String => some (HttpResponse.mk "text/html" "" 200
        "<a href=\"/uc?export=download&x=1\">") ) "u" =
      some (HttpResponse.mk "text/html" "" 200
        "<a href=\"/uc?export=download&x=1\">")) ∧
    (goHasPrefix (HttpResponse.mk "text/html" "" 200
        "<a href=\"/uc?export=download&x=1\">").contentType
        "text/html" = true) ∧
    downloadLoop
      (fun _ => some (HttpResponse.mk "text/html" "" 200
        "<a href=\"/uc?export=download&x=1\">"))
      (fun _ => none) (fun s => s)
      "https://docs.google.com/uc?export=download&x=1" 5 "u" "dest.bin" =
      .ok "dest.bin" := by
  refine ⟨rfl, by decide, ?_⟩
  have h4 : (4 : Nat) + 1 = 5 := by decide
  rw [← h4]
  exact C2_confirmation_loop_stops _ _ _
    "https://docs.google.com/uc?export=download&x=1" "u" "dest.bin" 4
    (HttpResponse.mk "text/html" "" 200 "<a href=\"/uc?export=download&x=1\">")
    rfl (by decide) rfl

theorem tryExt_some_decomp (l cap : List Char) (h : tryExt l = some cap) :
    ∃ c rest, l = extLit ++ c :: rest ∧ (c != '\n') = true := by
  unfold tryExt at h
  by_cases hp : extLit.isPrefixOf l
  · rw [if_pos hp] at h
    rw [List.isPrefixOf_iff_prefix] at hp
    obtain ⟨t, ht⟩ := hp
    subst ht
    rw [List.drop_left] at h
    cases t with
    | nil => simp [List.takeWhile] at h
    | cons c rest =>
      cases hc : (c != '\n') with
      | false => simp [List.takeWhile, hc] at h
      | true => exact ⟨c, rest, rfl, hc⟩
  · rw [if_neg hp] at h
    exact absurd h (by simp)

theorem tryExt_complete (c : Char) (rest : List Char)
    (hc : (c != '\n') = true) :
    (tryExt (extLit ++ c :: rest)).isSome = true := by
  have hpre : extLit.isPrefixOf (extLit ++ c :: rest) := by
    rw [List.isPrefixOf_iff_prefix]
    exact ⟨c :: rest, rfl⟩
  unfold tryExt
  rw [if_pos hpre, List.drop_left]
  simp [List.takeWhile, hc]

theorem tryBasic_some_decomp (l cap : List Char) (h : tryBasic l = some cap) :
    ∃ mid rest, l = basicLit ++ mid ++ '"' :: rest ∧ '\n' ∉ mid ∧ '"' ∉ mid := by
  unfold tryBasic at h
  by_cases hp : basicLit.isPrefixOf l
  · rw [if_pos hp] at h
    rw [List.isPrefixOf_iff_prefix] at hp
    obtain ⟨t, ht⟩ := hp
    subst ht
    rw [List.drop_left] at h
    set mid := t.takeWhile (fun c => c != '"') with hmid
    by_cases hn : '\n' ∈ mid
    · rw [if_pos (hmid ▸ hn)] at h
      exact absurd h (by simp)
    · rw [if_neg (hmid ▸ hn)] at h
      cases hd : t.dropWhile (fun c => c != '"') with
      | nil => simp [← hmid, hd] at h
      | cons d t2 =>
        rw [hd, if_neg (by simp)] at h
        have hdq : d = '"' := by
          have := dropWhile_cons_false (fun c => c != '"') t d t2 hd
          simpa using this
        have hsplit : mid ++ d :: t2 = t := by
          rw [hmid, ← hd]
          exact List.takeWhile_append_dropWhile (fun c => c != '"') t
        refine ⟨mid, t2, ?_, hn, ?_⟩
        · rw [← hsplit, hdq]
          simp
        · intro hmem
          have := List.mem_takeWhile_imp (hmid ▸ hmem)
          simp at this
  · rw [if_neg hp] at h
    exact absurd h (by simp)

theorem tryBasic_complete (mid rest : List Char) (hn : '\n' ∉ mid)
    (hq : '"' ∉ mid) :
    (tryBasic (basicLit ++ mid ++ '"' :: rest)).isSome = true := by
  have hpre : basicLit.isPrefixOf (basicLit ++ mid ++ '"' :: rest) := by
    rw [List.isPrefixOf_iff_prefix]
    exact ⟨mid ++ '"' :: rest, by simp⟩
  have hmidall : ∀ x ∈ mid, (x != '"') = true := by
    intro x hx
    simp only [bne_iff_ne, ne_eq]
    intro hxq; exact hq (hxq ▸ hx)
  have htw := takeWhile_middle (fun c => c != '"') mid '"' rest hmidall (by simp)
  unfold tryBasic
  rw [if_pos hpre]
  simp only [List.append_assoc] at htw ⊢
  rw [List.drop_left, htw.1, htw.2, if_neg hn, if_neg (by simp)]
  simp

theorem scanExt_isSome_iff (cd : String) :
    (scanFirst tryExt cd.data).isSome = true ↔ hasExtForm cd := by
  constructor
  · intro h
    obtain ⟨cap, hcap⟩ := Option.isSome_iff_exists.1 h
    obtain ⟨pre, suf, heq, hsuf⟩ := scanFirst_some tryExt cd.data cap hcap
    obtain ⟨c, rest, hdec, hc⟩ := tryExt_some_decomp suf cap hsuf
    exact ⟨pre, c, rest, by rw [heq, hdec]; simp, by simpa using hc⟩
  · rintro ⟨pre, c, rest, heq, hc⟩
    obtain ⟨cap, hcap⟩ :=
      Option.isSome_iff_exists.1 (tryExt_complete c rest (by simpa using hc))
    have h2 := scanFirst_isSome tryExt pre _ cap hcap
    rw [heq, List.append_assoc]
    exact h2

theorem scanBasic_isSome_iff (cd : String) :
    (scanFirst tryBasic cd.data).isSome = true ↔ hasBasicForm cd := by
  constructor
  · intro h
    obtain ⟨cap, hcap⟩ := Option.isSome_iff_exists.1 h
    obtain ⟨pre, suf, heq, hsuf⟩ := scanFirst_some tryBasic cd.data cap hcap
    obtain ⟨mid, rest, hdec, hn, hq⟩ := tryBasic_some_decomp suf cap hsuf
    exact ⟨pre, mid, rest, by rw [heq, hdec]; simp, hn, hq⟩
  · rintro ⟨pre, mid, rest, heq, hn, hq⟩
    obtain ⟨cap, hcap⟩ :=
      Option.isSome_iff_exists.1 (tryBasic_complete mid rest hn hq)
    have h2 := scanFirst_isSome tryBasic pre _ cap hcap
    have hassoc : pre ++ basicLit ++ mid ++ '"' :: rest =
        pre ++ (basicLit ++ mid ++ '"' :: rest) := by simp
    rw [heq, hassoc]
    exact h2

theorem sanitize_no_slash (s : String) : ∀ c ∈ (sanitizeFilename s).data, c ≠ '/' := by
  intro c hc
  unfold sanitizeFilename at hc
  simp only [List.mem_map] at hc
  obtain ⟨a, _, ha⟩ := hc
  by_cases h : a = '/'
  · rw [← ha]; simp [h]
  · rw [← ha]; simp [h]

theorem getFilename_no_slash (cd : String) :
    ∀ c ∈ (getFilenameFromResponse cd).data, c ≠ '/' := by
  have hb : ∀ x : String, ∀ c ∈ (basicOrDefault x).data, c ≠ '/' := by
    intro x
    unfold basicOrDefault
    cases hs : scanFirst tryBasic x.data with
    | some cap =>
      show ∀ c ∈ (sanitizeFilename (String.mk cap)).data, c ≠ '/'
      exact sanitize_no_slash _
    | none =>
      show ∀ c ∈ ("downloaded_file" : String).data, c ≠ '/'
      decide
  unfold getFilenameFromResponse
  by_cases h0 : cd = ""
  · rw [if_pos h0]
    decide
  · rw [if_neg h0]
    cases hext : scanFirst tryExt cd.data with
    | some cap =>
      show ∀ c ∈ (match queryUnescape cap with
          | some fn => sanitizeFilename (String.mk fn)
          | none => basicOrDefault cd).data, c ≠ '/'
      cases hun : queryUnescape cap with
      | some fn =>
        show ∀ c ∈ (sanitizeFilename (String.mk fn)).data, c ≠ '/'
        exact sanitize_no_slash _
      | none =>
        show ∀ c ∈ (basicOrDefault cd).data, c ≠ '/'
        exact hb cd
    | none =>
      show ∀ c ∈ (basicOrDefault cd).data, c ≠ '/'
      exact hb cd

/-- Claim C8: the destination filename derivation of Download.  An empty
destination becomes the URL path's basename; a destination that is an
existing directory is joined with the header-derived name, which prefers the
RFC 5987 extended form, falls back to the quoted basic form and then to the
fixed generic name, and never contains a path separator (separators are
mapped to underscores). -/
theorem C8_download_filename_derivation (stat : String → Option Bool)
    (urlPath cd output : String) :
    (output = "" → stat (pathBase urlPath) ≠ some true →
      deriveOutput stat urlPath cd output = pathBase urlPath) ∧
    (output ≠ "" → stat output = some true →
      deriveOutput stat urlPath cd output =
        joinPath output (getFilenameFromResponse cd)) ∧
    ((scanFirst tryExt cd.data).isSome = true ↔ hasExtForm cd) ∧
    ((scanFirst tryBasic cd.data).isSome = true ↔ hasBasicForm cd) ∧
    (∀ cap fn, scanFirst tryExt cd.data = some cap → queryUnescape cap = some fn →
      getFilenameFromResponse cd = sanitizeFilename (String.mk fn)) ∧
    (∀ cap, scanFirst tryExt cd.data = some cap → queryUnescape cap = none →
      getFilenameFromResponse cd = basicOrDefault cd) ∧
    (scanFirst tryExt cd.data = none →
      getFilenameFromResponse cd = basicOrDefault cd) ∧
    (∀ cap, scanFirst tryBasic cd.data = some cap →
      basicOrDefault cd = sanitizeFilename (String.mk cap)) ∧
    (scanFirst tryBasic cd.data = none → basicOrDefault cd = "downloaded_file") ∧
    (∀ c ∈ (getFilenameFromResponse cd).data, c ≠ '/') := by
  have hne : ∀ cap, scanFirst tryExt cd.data = some cap → cd ≠ "" := by
    intro cap hcap h0
    rw [h0] at hcap
    have : scanFirst tryExt ("" : String).data = none := by decide
    rw [this] at hcap
    exact absurd hcap (by simp)
  refine ⟨?_, ?_, scanExt_isSome_iff cd, scanBasic_isSome_iff cd, ?_, ?_, ?_, ?_, ?_,
    getFilename_no_slash cd⟩
  · intro h0 hdir
    simp only [deriveOutput, if_pos h0]
  · intro h0 hdir
    simp only [deriveOutput, if_neg h0]
    rw [hdir]
  · intro cap fn hcap hfn
    unfold getFilenameFromResponse
    rw [if_neg (hne cap hcap), hcap]
    show (match queryUnescape cap with
      | some fn => sanitizeFilename (String.mk fn)
      | none => basicOrDefault cd) = sanitizeFilename (String.mk fn)
    rw [hfn]
  · intro cap hcap hfn
    unfold getFilenameFromResponse
    rw [if_neg (hne cap hcap), hcap]
    show (match queryUnescape cap with
      | some fn => sanitizeFilename (String.mk fn)
      | none => basicOrDefault cd) = basicOrDefault cd
    rw [hfn]
  · intro hcap
    unfold getFilenameFromResponse
    by_cases h0 : cd = ""
    · rw [if_pos h0]
      unfold basicOrDefault
      rw [h0]
      decide
    · rw [if_neg h0, hcap]
  · intro cap hcap
    unfold basicOrDefault
    rw [hcap]
  · intro hcap
    unfold basicOrDefault
    rw [hcap]

theorem getFile_setFile (fs : List (String × String)) (p c : String) :
    getFile (setFile fs p c) p = some c := by
  unfold getFile setFile
  rw [List.find?_cons_of_pos _ (by simp)]

theorem fileExists_renamedFs (fs : List (String × String))
    (cacheRoot out content : String) :
    fileExists (renamedFs fs cacheRoot out content) out = true := by
  unfold renamedFs fileExists
  rw [getFile_setFile]
  rfl

theorem getFile_renamedFs (fs : List (String × String))
    (cacheRoot out content : String) :
    getFile (renamedFs fs cacheRoot out content) out = some content := by
  unfold renamedFs
  exact getFile_setFile _ _ _

theorem cachedFetch_ok (md5 : String → String) (net : String → Option String)
    (cacheRoot urlStr outputPath hash : String) (quiet : Bool)
    (post : Option (String → Except GErr Unit)) (s : DState) (q : String)
    (s1 : DState)
    (hcall : cachedFetch md5 net cacheRoot urlStr outputPath hash quiet post s =
      (.ok q, s1)) :
    q = cacheOutPath cacheRoot urlStr outputPath ∧ fileExists s1.fs q = true := by
  unfold cachedFetch at hcall
  cases hnet : net urlStr with
  | none =>
    simp only [hnet] at hcall
    simp [Prod.mk.injEq] at hcall
  | some content =>
    simp only [hnet] at hcall
    by_cases hifc : hash ≠ "" ∧ assertFileHash md5
        (renamedFs s.fs cacheRoot (cacheOutPath cacheRoot urlStr outputPath) content)
        (cacheOutPath cacheRoot urlStr outputPath) hash quiet ≠ (true, none)
    · rw [if_pos hifc] at hcall
      simp [Prod.mk.injEq] at hcall
    · rw [if_neg hifc] at hcall
      cases post with
      | none =>
        simp only [Prod.mk.injEq, Except.ok.injEq] at hcall
        obtain ⟨h1, h2⟩ := hcall
        refine ⟨h1.symm, ?_⟩
        rw [← h2, ← h1]
        exact fileExists_renamedFs _ _ _ _
      | some pp =>
        cases hpp : pp (cacheOutPath cacheRoot urlStr outputPath) with
        | ok u =>
          simp only [hpp] at hcall
          simp only [Prod.mk.injEq, Except.ok.injEq] at hcall
          obtain ⟨h1, h2⟩ := hcall
          refine ⟨h1.symm, ?_⟩
          rw [← h2, ← h1]
          exact fileExists_renamedFs _ _ _ _
        | error e =>
          simp only [hpp] at hcall
          simp [Prod.mk.injEq] at hcall

/-- Claim C5: cached download is idempotent when no hash is requested.  If
the derived (or given) cache path already exists and the hash argument is
empty, CachedDownload returns that path with the state — in particular the
fetch counter — unchanged; and after any successful call, an immediately
repeated call returns the same path and changes nothing. -/
theorem C5_cached_download_idempotent (md5 : String → String)
    (net : String → Option String) (cacheRoot urlStr outputPath : String)
    (quiet : Bool) (post : Option (String → Except GErr Unit)) (s : DState) :
    (fileExists s.fs (cacheOutPath cacheRoot urlStr outputPath) = true →
      CachedDownload md5 net cacheRoot urlStr outputPath "" quiet post s =
        (.ok (cacheOutPath cacheRoot urlStr outputPath), s)) ∧
    (∀ q s1,
      CachedDownload md5 net cacheRoot urlStr outputPath "" quiet post s =
        (.ok q, s1) →
      q = cacheOutPath cacheRoot urlStr outputPath ∧
      CachedDownload md5 net cacheRoot urlStr outputPath "" quiet post s1 =
        (.ok q, s1)) := by
  constructor
  · intro hex
    unfold CachedDownload
    have hc1 : fileExists s.fs (cacheOutPath cacheRoot urlStr outputPath) = true ∧
        ("" : String) = "" := ⟨hex, rfl⟩
    rw [if_pos hc1]
  · intro q s1 hcall
    unfold CachedDownload at hcall
    by_cases hex : fileExists s.fs (cacheOutPath cacheRoot urlStr outputPath) = true
    · have hc1 : fileExists s.fs (cacheOutPath cacheRoot urlStr outputPath) = true ∧
          ("" : String) = "" := ⟨hex, rfl⟩
      rw [if_pos hc1] at hcall
      simp only [Prod.mk.injEq, Except.ok.injEq] at hcall
      obtain ⟨h1, h2⟩ := hcall
      refine ⟨h1.symm, ?_⟩
      unfold CachedDownload
      rw [← h2, if_pos hc1, h1]
    · have hc1 : ¬(fileExists s.fs (cacheOutPath cacheRoot urlStr outputPath) = true ∧
          ("" : String) = "") := fun hh => hex hh.1
      rw [if_neg hc1] at hcall
      have hc2 : ¬(fileExists s.fs (cacheOutPath cacheRoot urlStr outputPath) = true ∧
          ("" : String) ≠ "" ∧
          (assertFileHash md5 s.fs (cacheOutPath cacheRoot urlStr outputPath) "" quiet).1 =
            true) := fun hh => hh.2.1 rfl
      rw [if_neg hc2] at hcall
      obtain ⟨hq, hfe⟩ :=
        cachedFetch_ok md5 net cacheRoot urlStr outputPath "" quiet post s q s1 hcall
      refine ⟨hq, ?_⟩
      unfold CachedDownload
      have hc3 : fileExists s1.fs (cacheOutPath cacheRoot urlStr outputPath) = true ∧
          ("" : String) = "" := ⟨hq ▸ hfe, rfl⟩
      rw [if_pos hc3, hq]

/-- Witness for C5: a populated cache returns immediately with no state
change; an empty cache fetches once, and the repeated call fetches nothing
and returns the same path. -/
theorem C5_cached_download_idempotent_witness :
    (fileExists [("cr/u-COLON-v", "data")] (cacheOutPath "cr" "u:v" "") = true ∧
      CachedDownload (fun _ => "h") (fun _ => some "data") "cr" "u:v" "" ""
        false none ⟨[("cr/u-COLON-v", "data")], 0⟩ =
        (.ok (cacheOutPath "cr" "u:v" ""), ⟨[("cr/u-COLON-v", "data")], 0⟩)) ∧
    (CachedDownload (fun _ => "h") (fun _ => some "data") "cr" "u:v" "" ""
        false none ⟨[], 0⟩ =
        (.ok "cr/u-COLON-v", ⟨[("cr/u-COLON-v", "data")], 1⟩) ∧
      "cr/u-COLON-v" = cacheOutPath "cr" "u:v" "" ∧
      CachedDownload (fun _ => "h") (fun _ => some "data") "cr" "u:v" "" ""
        false none ⟨[("cr/u-COLON-v", "data")], 1⟩ =
        (.ok "cr/u-COLON-v", ⟨[("cr/u-COLON-v", "data")], 1⟩)) := by
  have hfirst :
      CachedDownload (fun _ => "h") (fun _ => some "data") "cr" "u:v" "" ""
        false none ⟨[], 0⟩ =
        (.ok "cr/u-COLON-v", ⟨[("cr/u-COLON-v", "data")], 1⟩) := by rfl
  have h2 := (C5_cached_download_idempotent (fun _ => "h") (fun _ => some "data")
    "cr" "u:v" "" false none ⟨[], 0⟩).2 "cr/u-COLON-v"
    ⟨[("cr/u-COLON-v", "data")], 1⟩ hfirst
  refine ⟨⟨by rfl, ?_⟩, hfirst, h2.1, h2.2⟩
  exact (C5_cached_download_idempotent (fun _ => "h") (fun _ => some "data")
    "cr" "u:v" "" false none ⟨[("cr/u-COLON-v", "data")], 0⟩).1 (by rfl)

theorem splitFirst_not_mem (sep : Char) :
    ∀ l : List Char, sep ∉ l → splitFirst sep l = none := by
  intro l
  induction l with
  | nil => intro _; rfl
  | cons c t ih =>
    intro h
    have hc : c ≠ sep := fun hh => h (hh ▸ List.mem_cons_self c t)
    have ht : sep ∉ t := fun hh => h (List.mem_cons_of_mem c hh)
    simp [splitFirst, hc, ih ht]

theorem splitFirst_append (sep : Char) (l1 l2 : List Char) (h : sep ∉ l1) :
    splitFirst sep (l1 ++ sep :: l2) = some (l1, l2) := by
  induction l1 with
  | nil => simp [splitFirst]
  | cons c t ih =>
    have hc : c ≠ sep := fun hh => h (hh ▸ List.mem_cons_self c t)
    have ht : sep ∉ t := fun hh => h (List.mem_cons_of_mem c hh)
    simp [splitFirst, hc, ih ht]

theorem assertFileHash_md5_mismatch (md5 : String → String)
    (fs : List (String × String)) (out content d : String) (quiet : Bool)
    (hget : getFile fs out = some content) (hne : md5 content ≠ d) :
    assertFileHash md5 fs out ("md5:" ++ d) quiet =
      (false, some (.hashMismatch (md5 content) d)) := by
  have hsp : splitFirst ':' ("md5:" ++ d).data = some ("md5".data, d.data) := by
    have hdata : ("md5:" ++ d).data = "md5".data ++ ':' :: d.data := rfl
    rw [hdata]
    exact splitFirst_append ':' "md5".data d.data (by decide)
  unfold assertFileHash
  rw [hsp]
  show (if ("md5" : String) = "md5" then
      match MD5Sum md5 fs out with
      | .error e => (false, some e)
      | .ok actual =>
        if actual = d then ((true : Bool), (none : Option GErr))
        else (false, some (.hashMismatch actual d))
    else (false, some (.unsupportedHashAlgo "md5"))) =
    (false, some (.hashMismatch (md5 content) d))
  rw [if_pos rfl]
  unfold MD5Sum
  rw [hget]
  show (if md5 content = d then ((true : Bool), (none : Option GErr))
      else (false, some (.hashMismatch (md5 content) d))) =
    (false, some (.hashMismatch (md5 content) d))
  rw [if_neg hne]

theorem md5hash_ne_empty (d : String) : ("md5:" ++ d) ≠ "" := by
  intro h
  have h2 : ('m' :: 'd' :: '5' :: ':' :: d.data) = ([] : List Char) :=
    congrArg String.data h
  exact absurd h2 (by simp)

/-- Claim C6: hash verification distinguishes its failure modes — a hash
without a colon yields the invalid-format error, an unknown algorithm yields
the unsupported-algorithm error, both rendered differently from a digest
mismatch — and a post-download mismatch makes CachedDownload fail rather
than return the unverified file. -/
theorem C6_hash_error_taxonomy (md5 : String → String)
    (fs : List (String × String)) (f hstr algo d a e : String) (quiet : Bool) :
    (':' ∉ hstr.data →
      assertFileHash md5 fs f hstr quiet =
        (false, some (.invalidHashFormat hstr))) ∧
    (':' ∉ algo.data → algo ≠ "md5" →
      assertFileHash md5 fs f (algo ++ ":" ++ d) quiet =
        (false, some (.unsupportedHashAlgo algo))) ∧
    (GErr.render (.invalidHashFormat hstr) ≠ GErr.render (.hashMismatch a e)) ∧
    (GErr.render (.unsupportedHashAlgo algo) ≠ GErr.render (.hashMismatch a e)) ∧
    (∀ (net : String → Option String)
        (cacheRoot urlStr outputPath content : String)
        (post : Option (String → Except GErr Unit)) (s : DState),
      net urlStr = some content → md5 content ≠ d →
      ¬(fileExists s.fs (cacheOutPath cacheRoot urlStr outputPath) = true ∧
        (assertFileHash md5 s.fs (cacheOutPath cacheRoot urlStr outputPath)
          ("md5:" ++ d) quiet).1 = true) →
      CachedDownload md5 net cacheRoot urlStr outputPath ("md5:" ++ d) quiet
          post s =
        (.error (.hashMismatchForFile (cacheOutPath cacheRoot urlStr outputPath)),
          ⟨renamedFs s.fs cacheRoot (cacheOutPath cacheRoot urlStr outputPath)
            content, s.fetches + 1⟩)) := by
  refine ⟨?_, ?_, ?_, ?_, ?_⟩
  · intro hcol
    unfold assertFileHash
    rw [splitFirst_not_mem ':' hstr.data hcol]
  · intro hcol halgo
    have hdata : (algo ++ ":" ++ d).data = algo.data ++ ':' :: d.data := by
      have h1 : (algo ++ ":" ++ d).data = (algo.data ++ ":".data) ++ d.data := by
        rw [String.data_append, String.data_append]
      rw [h1, List.append_assoc]
      rfl
    have hsp : splitFirst ':' (algo ++ ":" ++ d).data = some (algo.data, d.data) := by
      rw [hdata]
      exact splitFirst_append ':' algo.data d.data hcol
    unfold assertFileHash
    rw [hsp]
    show (if algo = "md5" then
        match MD5Sum md5 fs f with
        | .error err => (false, some err)
        | .ok actual =>
          if actual = d then ((true : Bool), (none : Option GErr))
          else (false, some (.hashMismatch actual d))
      else (false, some (.unsupportedHashAlgo algo))) =
      (false, some (.unsupportedHashAlgo algo))
    rw [if_neg halgo]
  · intro heq
    have hd := congrArg String.data heq
    simp only [GErr.render, String.data_append] at hd
    have h1 : (some 'i' : Option Char) = some 'h' := by
      calc (some 'i' : Option Char)
          = ("invalid hash format: ".data ++ hstr.data).head? := rfl
        _ = ("hash mismatch: actual ".data ++ a.data ++ ", expected ".data ++
              e.data).head? := by rw [hd]
        _ = some 'h' := rfl
    exact absurd h1 (by decide)
  · intro heq
    have hd := congrArg String.data heq
    simp only [GErr.render, String.data_append] at hd
    have h1 : (some 'u' : Option Char) = some 'h' := by
      calc (some 'u' : Option Char)
          = ("unsupported hash algorithm: ".data ++ algo.data).head? := rfl
        _ = ("hash mismatch: actual ".data ++ a.data ++ ", expected ".data ++
              e.data).head? := by rw [hd]
        _ = some 'h' := rfl
    exact absurd h1 (by decide)
  · intro net cacheRoot urlStr outputPath content post s hnet hmis hpre
    have hne := md5hash_ne_empty d
    unfold CachedDownload
    have hc1 : ¬(fileExists s.fs (cacheOutPath cacheRoot urlStr outputPath) = true ∧
        ("md5:" ++ d) = "") := fun hh => hne hh.2
    rw [if_neg hc1]
    have hc2 : ¬(fileExists s.fs (cacheOutPath cacheRoot urlStr outputPath) = true ∧
        ("md5:" ++ d) ≠ "" ∧
        (assertFileHash md5 s.fs (cacheOutPath cacheRoot urlStr outputPath)
          ("md5:" ++ d) quiet).1 = true) := fun hh => hpre ⟨hh.1, hh.2.2⟩
    rw [if_neg hc2]
    unfold cachedFetch
    simp only [hnet]
    have hassert := assertFileHash_md5_mismatch md5
      (renamedFs s.fs cacheRoot (cacheOutPath cacheRoot urlStr outputPath) content)
      (cacheOutPath cacheRoot urlStr outputPath) content d quiet
      (getFile_renamedFs _ _ _ _) hmis
    have hifc : ("md5:" ++ d) ≠ "" ∧ assertFileHash md5
        (renamedFs s.fs cacheRoot (cacheOutPath cacheRoot urlStr outputPath) content)
        (cacheOutPath cacheRoot urlStr outputPath) ("md5:" ++ d) quiet ≠
          (true, none) := by
      refine ⟨hne, ?_⟩
      rw [hassert]
      simp
    rw [if_pos hifc]

/-- Witness for C6 at concrete inputs: a colon-free hash spec, an unknown
algorithm, and a persisting mismatch on a fetched file. -/
theorem C6_hash_error_taxonomy_witness :
    (assertFileHash (fun _ => "aa") [] "f" "nocolonhash" false =
      (false, some (.invalidHashFormat "nocolonhash"))) ∧
    (assertFileHash (fun _ => "aa") [] "f" ("sha1" ++ ":" ++ "abc") false =
      (false, some (.unsupportedHashAlgo "sha1"))) ∧
    (GErr.render (.invalidHashFormat "nocolonhash") ≠
      GErr.render (.hashMismatch "x" "y")) ∧
    (GErr.render (.unsupportedHashAlgo "sha1") ≠
      GErr.render (.hashMismatch "x" "y")) ∧
    (CachedDownload (fun _ => "aa") (fun _ => some "data") "cr" "u" ""
        ("md5:" ++ "bb") false none ⟨[], 0⟩ =
      (.error (.hashMismatchForFile (cacheOutPath "cr" "u" "")),
        ⟨renamedFs [] "cr" (cacheOutPath "cr" "u" "") "data", 1⟩)) := by
  have h := C6_hash_error_taxonomy (fun _ => "aa") [] "f" "nocolonhash" "sha1"
    "bb" "x" "y" false
  refine ⟨?_, ?_, h.2.2.1, h.2.2.2.1, ?_⟩
  · exact h.1 (by decide)
  · exact (C6_hash_error_taxonomy (fun _ => "aa") [] "f" "nocolonhash" "sha1"
      "abc" "x" "y" false).2.1 (by decide) (by decide)
  · exact h.2.2.2.2 (fun _ => some "data") "cr" "u" "" "data" none ⟨[], 0⟩
      rfl (by decide) (by decide)

/-- Witness for C8 at concrete inputs: empty destination takes the URL
basename; a directory destination takes the sanitized header filename. -/
theorem C8_download_filename_derivation_witness :
    deriveOutput (fun p => if p = "dir" then some true else none) "a/b/c.bin"
      "attachment; filename=\"re/port.txt\"" "" = "c.bin" ∧
    deriveOutput (fun p => if p = "dir" then some true else none) "a/b/c.bin"
      "attachment; filename=\"re/port.txt\"" "dir" = "dir/re_port.txt" := by
  constructor
  · have h := (C8_download_filename_derivation
      (fun p => if p = "dir" then some true else none) "a/b/c.bin"
      "attachment; filename=\"re/port.txt\"" "").1 rfl (by decide)
    rw [h]
    decide
  · have h := (C8_download_filename_derivation
      (fun p => if p = "dir" then some true else none) "a/b/c.bin"
      "attachment; filename=\"re/port.txt\"" "dir").2.1 (by decide) (by decide)
    rw [h]
    decide

/-- Counterexample to claim C9 as stated: transferring S = 1 byte at
configured rate R = 2 bytes/sec with an instantaneous underlying write ends
with 0 elapsed nanoseconds, strictly less than the claimed lower bound
S/R = 0.5 s: the expected-time computation truncates `written/speed` to whole
seconds, so no sleep is inserted at all. -/
theorem C9_throttle_claim_counterexample :
    (runTransfer 2 0 [(1, 0)]).2 = 0 ∧ totalBytes [(1, 0)] = 1 ∧
    (0 : ℚ) < ((totalBytes [(1, 0)] : ℚ) / 2) * (nsPerSecond : ℚ) := by
  refine ⟨rfl, rfl, ?_⟩
  have h : totalBytes [(1, 0)] = 1 := rfl
  rw [h]
  norm_num [nsPerSecond]

theorem runTransfer_invariant (speed start : Nat) :
    ∀ (chunks : List (Nat × Nat)) (w now : Nat),
      start + w / speed * nsPerSecond ≤ now →
      (chunks.foldl (fun acc c => throttledWrite acc.1 c.1 (acc.2 + c.2))
        (⟨speed, start, w⟩, now)).1 =
          ⟨speed, start, w + totalBytes chunks⟩ ∧
      start + (w + totalBytes chunks) / speed * nsPerSecond ≤
        (chunks.foldl (fun acc c => throttledWrite acc.1 c.1 (acc.2 + c.2))
          (⟨speed, start, w⟩, now)).2 := by
  intro chunks
  induction chunks with
  | nil =>
    intro w now hinv
    refine ⟨by simp [totalBytes], ?_⟩
    simpa [totalBytes] using hinv
  | cons c rest ih =>
    obtain ⟨n, lat⟩ := c
    intro w now hinv
    have hstart_le : start ≤ now := le_trans (Nat.le_add_right _ _) hinv
    simp only [List.foldl_cons]
    have hnow2 : start + (w + n) / speed * nsPerSecond ≤
        (throttledWrite ⟨speed, start, w⟩ n (now + lat)).2 := by
      show start + (w + n) / speed * nsPerSecond ≤
        (if (now + lat) - start < (w + n) / speed * nsPerSecond then
          (now + lat) + ((w + n) / speed * nsPerSecond - ((now + lat) - start))
        else (now + lat))
      generalize (w + n) / speed * nsPerSecond = E
      by_cases hc : (now + lat) - start < E
      · rw [if_pos hc]; omega
      · rw [if_neg hc]; omega
    have hpair : throttledWrite ⟨speed, start, w⟩ n (now + lat) =
        (⟨speed, start, w + n⟩,
          (throttledWrite ⟨speed, start, w⟩ n (now + lat)).2) := rfl
    rw [hpair]
    obtain ⟨ih1, ih2⟩ := ih (w + n) _ hnow2
    have htot : w + n + totalBytes rest = w + totalBytes ((n, lat) :: rest) := by
      simp [totalBytes]
      omega
    constructor
    · rw [ih1, htot]
    · rw [← htot]
      exact ih2

/-- Claim C9, amended: for a transfer of S bytes at configured positive rate
R bytes/sec, the final wall clock is at least `start + (S / R) * 1e9` ns with
the quotient truncated to whole seconds — the sleeps cover the positive
difference between ⌊S_written/R⌋ seconds and the elapsed time, so the
transfer can finish up to one second's worth of bytes faster than the real
S/R bound, but never faster than the floored bound. -/
theorem C9_throttle_floor_bound (speed start : Nat) (chunks : List (Nat × Nat))
    (hpos : 0 < speed) :
    (runTransfer speed start chunks).1.written = totalBytes chunks ∧
    start + totalBytes chunks / speed * nsPerSecond ≤
      (runTransfer speed start chunks).2 := by
  have h := runTransfer_invariant speed start chunks 0 start (by simp)
  unfold runTransfer NewThrottledWriter
  obtain ⟨h1, h2⟩ := h
  constructor
  · rw [h1]
    simp
  · simpa using h2

/-- Witness for the amended C9 bound: 3 bytes at 2 bytes/sec starting at
instant 5 with a 7 ns underlying write. -/
theorem C9_throttle_floor_bound_witness :
    0 < 2 ∧ ((runTransfer 2 5 [(3, 7)]).1.written = totalBytes [(3, 7)] ∧
      5 + totalBytes [(3, 7)] / 2 * nsPerSecond ≤ (runTransfer 2 5 [(3, 7)]).2) :=
  ⟨by decide, C9_throttle_floor_bound 2 5 [(3, 7)] (by decide)⟩

theorem dAPGDL_zero (gd : String → Bool) (net : String → Except GErr RemotePage)
    (quiet ro : Bool) (u : String) :
    downloadAndParseGoogleDriveLink gd net quiet ro 0 u = .error .outOfFuel := rfl

theorem dAPGDL_succ (gd : String → Bool) (net : String → Except GErr RemotePage)
    (quiet ro : Bool) (fuel : Nat) (urlStr : String) :
    downloadAndParseGoogleDriveLink gd net quiet ro (fuel + 1) urlStr =
      match net (addHl gd urlStr) with
      | .error e => .error e
      | .ok page =>
        match resolveRows gd net quiet ro fuel page.rows with
        | .error e => .error e
        | .ok cs =>
          if cs.length == MAX_NUMBER_FILES && !ro then
            .error (.other "folder has more than 50 files")
          else .ok (GDriveFile.mk (pathBase (addHl gd urlStr)) page.name
            folderMime cs) := rfl

theorem resolveRowsWith_mono (sub1 sub2 : String → Except GErr GDriveFile)
    (hsub : ∀ u g, sub1 u = .ok g → sub2 u = .ok g) :
    ∀ rows cs, resolveRowsWith sub1 rows = .ok cs →
      resolveRowsWith sub2 rows = .ok cs := by
  intro rows
  induction rows with
  | nil => intro cs h; exact h
  | cons r rest ih =>
    intro cs h
    simp only [resolveRowsWith] at h ⊢
    by_cases ht : r.typ ≠ folderMime
    · rw [if_pos ht] at h ⊢
      cases hrec : resolveRowsWith sub1 rest with
      | error e => rw [hrec] at h; exact absurd h (by simp)
      | ok cs1 =>
        rw [hrec] at h
        rw [ih cs1 hrec]
        exact h
    · rw [if_neg ht] at h ⊢
      cases hsub1 : sub1 (folderUrlBase ++ r.id) with
      | error e => rw [hsub1] at h; exact absurd h (by simp)
      | ok subF =>
        rw [hsub1] at h
        rw [hsub _ _ hsub1]
        cases hrec : resolveRowsWith sub1 rest with
        | error e => rw [hrec] at h; exact absurd h (by simp)
        | ok cs1 =>
          rw [hrec] at h
          rw [ih cs1 hrec]
          exact h

theorem downloadAndParse_mono (gd : String → Bool)
    (net : String → Except GErr RemotePage) (quiet : Bool) :
    ∀ (fuel : Nat) (u : String) (g : GDriveFile),
      downloadAndParseGoogleDriveLink gd net quiet false fuel u = .ok g →
      downloadAndParseGoogleDriveLink gd net quiet true fuel u = .ok g := by
  intro fuel
  induction fuel with
  | zero =>
    intro u g h
    rw [dAPGDL_zero] at h
    exact absurd h (by simp)
  | succ fuel ih =>
    intro u g h
    rw [dAPGDL_succ] at h
    rw [dAPGDL_succ]
    cases hnet : net (addHl gd u) with
    | error e => simp only [hnet] at h ⊢; exact h
    | ok page =>
      simp only [hnet] at h ⊢
      cases hrows : resolveRows gd net quiet false fuel page.rows with
      | error e =>
        simp only [hrows] at h
        exact absurd h (by simp)
      | ok cs =>
        simp only [hrows] at h
        have hrows2 : resolveRows gd net quiet true fuel page.rows = .ok cs := by
          unfold resolveRows at hrows ⊢
          exact resolveRowsWith_mono _ _ (fun u2 g2 hh => ih u2 g2 hh)
            page.rows cs hrows
        simp only [hrows2]
        by_cases hlen : (cs.length == MAX_NUMBER_FILES) = true
        · exfalso
          rw [if_pos (by simp [hlen])] at h
          exact absurd h (by simp)
        · rw [if_neg (by simp [hlen])] at h
          rw [if_neg (by simp)]
          exact h

/-- Claim C4: when processing a folder page whose direct children resolve to
exactly MAX_NUMBER_FILES (50) nodes, resolution fails with the large-folder
error when remainingOk is false, and succeeds — returning the node carrying
all 50 children — when remainingOk is true. -/
theorem C4_folder_pagination_limit (gd : String → Bool)
    (net : String → Except GErr RemotePage) (quiet : Bool) (fuel : Nat)
    (urlStr : String) (page : RemotePage) (cs : GDList)
    (hnet : net (addHl gd urlStr) = .ok page)
    (hrows : resolveRows gd net quiet false fuel page.rows = .ok cs)
    (hlen : cs.length = MAX_NUMBER_FILES) :
    downloadAndParseGoogleDriveLink gd net quiet false (fuel + 1) urlStr =
      .error (.other "folder has more than 50 files") ∧
    downloadAndParseGoogleDriveLink gd net quiet true (fuel + 1) urlStr =
      .ok (GDriveFile.mk (pathBase (addHl gd urlStr)) page.name folderMime cs) := by
  have hrows2 : resolveRows gd net quiet true fuel page.rows = .ok cs := by
    unfold resolveRows at hrows ⊢
    exact resolveRowsWith_mono _ _
      (fun u2 g2 hh => downloadAndParse_mono gd net quiet fuel u2 g2 hh)
      page.rows cs hrows
  constructor
  · rw [dAPGDL_succ]
    simp only [hnet, hrows]
    rw [if_pos (by simp [hlen])]
  · rw [dAPGDL_succ]
    simp only [hnet, hrows2]
    rw [if_neg (by simp)]

/-- Witness for C4: a page of exactly 50 plain-file rows fails with
remainingOk=false and succeeds with all 50 children with remainingOk=true. -/
theorem C4_folder_pagination_limit_witness :
    ((fun _ : String =>
        (.ok ⟨"My Folder", List.replicate 50 ⟨"fid", "f.txt", "text/plain"⟩⟩ :
          Except GErr RemotePage)) (addHl (fun _ => false) "u") =
      .ok ⟨"My Folder", List.replicate 50 ⟨"fid", "f.txt", "text/plain"⟩⟩) ∧
    (resolveRows (fun _ => false)
      (fun _ => .ok ⟨"My Folder", List.replicate 50 ⟨"fid", "f.txt", "text/plain"⟩⟩)
      false false 0 (List.replicate 50 ⟨"fid", "f.txt", "text/plain"⟩) =
      .ok (gdRep 50)) ∧
    ((gdRep 50).length = MAX_NUMBER_FILES) ∧
    downloadAndParseGoogleDriveLink (fun _ => false)
      (fun _ => .ok ⟨"My Folder", List.replicate 50 ⟨"fid", "f.txt", "text/plain"⟩⟩)
      false false 1 "u" = .error (.other "folder has more than 50 files") ∧
    downloadAndParseGoogleDriveLink (fun _ => false)
      (fun _ => .ok ⟨"My Folder", List.replicate 50 ⟨"fid", "f.txt", "text/plain"⟩⟩)
      false true 1 "u" =
      .ok (GDriveFile.mk (pathBase (addHl (fun _ => false) "u")) "My Folder"
        folderMime (gdRep 50)) := by
  have h := C4_folder_pagination_limit (fun _ => false)
    (fun _ => .ok ⟨"My Folder", List.replicate 50 ⟨"fid", "f.txt", "text/plain"⟩⟩)
    false 0 "u" ⟨"My Folder", List.replicate 50 ⟨"fid", "f.txt", "text/plain"⟩⟩
    (gdRep 50) rfl (by decide) (by decide)
  exact ⟨rfl, by decide, by decide, h.1, h.2⟩

mutual
theorem flattenAnn_map : ∀ (g : GDriveFile) (p : String) (anc : List String),
    (flattenAnn g p anc).map (fun x => x.1) = getDirectoryStructure g p
  | ⟨_, _, _, cs⟩, p, anc => flattenAnnList_map cs p anc
theorem flattenAnnList_map : ∀ (l : GDList) (p : String) (anc : List String),
    (flattenAnnList l p anc).map (fun x => x.1) = gdsList l p
  | .nil, _, _ => rfl
  | .cons child rest, p, anc => by
    by_cases hf : child.IsFolder = true
    · simp [flattenAnnList, gdsList, hf, flattenAnn_map child,
        flattenAnnList_map rest]
    · simp [flattenAnnList, gdsList, hf, flattenAnnList_map rest]
end

theorem size_pos (g : GDriveFile) : 1 ≤ GDriveFile.size g := by
  cases g with
  | mk i n t cs => simp [GDriveFile.size]

mutual
theorem gds_length_wf : ∀ (g : GDriveFile) (p : String),
    GDriveFile.wfb g = true →
    (getDirectoryStructure g p).length + 1 = GDriveFile.size g
  | ⟨i, n, t, cs⟩, p, hwf => by
    have hlist : GDList.wfbList cs = true := by
      simp [GDriveFile.wfb] at hwf
      exact hwf.2
    have h := gdsList_length_wf cs p hlist
    show (gdsList cs p).length + 1 = 1 + GDList.sizeList cs
    omega
theorem gdsList_length_wf : ∀ (l : GDList) (p : String),
    GDList.wfbList l = true →
    (gdsList l p).length = GDList.sizeList l
  | .nil, _, _ => rfl
  | .cons child rest, p, hwf => by
    have hw : GDriveFile.wfb child = true ∧ GDList.wfbList rest = true := by
      simpa [GDList.wfbList] using hwf
    have h2 := gdsList_length_wf rest p hw.2
    by_cases hf : child.IsFolder = true
    · have h1 := gds_length_wf child (joinPath p (sanitizeFilename child.name))
        hw.1
      simp only [gdsList, hf, if_true, List.length_cons, List.length_append]
      show (getDirectoryStructure child
          (joinPath p (sanitizeFilename child.name))).length +
        (gdsList rest p).length + 1 = GDList.sizeList (.cons child rest)
      show _ = GDriveFile.size child + GDList.sizeList rest
      omega
    · have hsz : GDriveFile.size child = 1 := by
        cases child with
        | mk i2 n2 t2 cs2 =>
          cases cs2 with
          | nil => rfl
          | cons a b =>
            exfalso
            simp [GDriveFile.wfb, GDriveFile.IsFolder, GDriveFile.typ] at hw hf
            exact hf hw.1.1
      simp only [gdsList, hf, if_false, List.length_cons]
      show (gdsList rest p).length + 1 = GDriveFile.size child + GDList.sizeList rest
      omega
end

mutual
theorem flattenAnn_shape : ∀ (g : GDriveFile) (p : String) (anc : List String)
    (x : FileToDownload × GDriveFile × List String), x ∈ flattenAnn g p anc →
    (x.2.1.IsFolder = true → x.1.id = "") ∧
    (x.2.1.IsFolder = false → x.1.id = x.2.1.id)
  | ⟨_, _, _, cs⟩, p, anc, x, hx => flattenAnnList_shape cs p anc x hx
theorem flattenAnnList_shape : ∀ (l : GDList) (p : String) (anc : List String)
    (x : FileToDownload × GDriveFile × List String), x ∈ flattenAnnList l p anc →
    (x.2.1.IsFolder = true → x.1.id = "") ∧
    (x.2.1.IsFolder = false → x.1.id = x.2.1.id)
  | .nil, _, _, x, hx => absurd hx (by simp [flattenAnnList])
  | .cons child rest, p, anc, x, hx => by
    by_cases hf : child.IsFolder = true
    · simp only [flattenAnnList, hf, if_true, List.mem_cons, List.mem_append] at hx
      rcases hx with hx | hx | hx
      · subst hx
        constructor
        · intro _; rfl
        · intro hcontra
          rw [hf] at hcontra
          exact absurd hcontra (by simp)
      · exact flattenAnn_shape child _ _ x hx
      · exact flattenAnnList_shape rest p anc x hx
    · simp only [flattenAnnList] at hx
      rw [if_neg hf] at hx
      simp only [List.mem_cons] at hx
      rcases hx with hx | hx
      · subst hx
        constructor
        · intro hcontra
          rw [hcontra] at hf
          exact absurd rfl hf
        · intro _; rfl
      · exact flattenAnnList_shape rest p anc x hx
end

mutual
theorem flattenAnn_anc : ∀ (g : GDriveFile) (p : String) (anc : List String)
    (L1 : List (FileToDownload × GDriveFile × List String))
    (e : FileToDownload × GDriveFile × List String)
    (L2 : List (FileToDownload × GDriveFile × List String)),
    flattenAnn g p anc = L1 ++ e :: L2 →
    ∀ a ∈ e.2.2, a ∈ anc ∨
      ∃ x ∈ L1, x.1 = FileToDownload.mk "" a a ∧ x.2.1.IsFolder = true
  | ⟨_, _, _, cs⟩, p, anc, L1, e, L2, heq =>
    flattenAnnList_anc cs p anc L1 e L2 heq
theorem flattenAnnList_anc : ∀ (l : GDList) (p : String) (anc : List String)
    (L1 : List (FileToDownload × GDriveFile × List String))
    (e : FileToDownload × GDriveFile × List String)
    (L2 : List (FileToDownload × GDriveFile × List String)),
    flattenAnnList l p anc = L1 ++ e :: L2 →
    ∀ a ∈ e.2.2, a ∈ anc ∨
      ∃ x ∈ L1, x.1 = FileToDownload.mk "" a a ∧ x.2.1.IsFolder = true
  | .nil, p, anc, L1, e, L2, heq => by
    intro a ha
    exfalso
    have h0 : ([] : List (FileToDownload × GDriveFile × List String)) =
        L1 ++ e :: L2 := heq
    exact absurd h0.symm (by simp)
  | .cons child rest, p, anc, L1, e, L2, heq => by
    intro a ha
    by_cases hf : child.IsFolder = true
    · set np := joinPath p (sanitizeFilename child.name) with hnp
      have heq' : ((FileToDownload.mk "" np np, child, anc) ::
          (flattenAnn child np (anc ++ [np]) ++ flattenAnnList rest p anc) :
            List (FileToDownload × GDriveFile × List String)) = L1 ++ e :: L2 := by
        rw [← heq]
        simp only [flattenAnnList]
        rw [if_pos hf]
      cases L1 with
      | nil =>
        simp only [List.nil_append] at heq'
        have he := (List.cons.inj heq').1
        left
        rw [← he] at ha
        exact ha
      | cons y L1' =>
        have hy : y = (FileToDownload.mk "" np np, child, anc) :=
          ((List.cons.inj heq').1).symm
        have htail : flattenAnn child np (anc ++ [np]) ++
            flattenAnnList rest p anc = L1' ++ e :: L2 :=
          (List.cons.inj heq').2
        rcases List.append_eq_append_iff.1 htail with ⟨w, hw1, hw2⟩ | ⟨w, hw1, hw2⟩
        · rcases flattenAnnList_anc rest p anc w e L2 hw2 a ha with
            hin | ⟨x, hxw, hx1, hx2⟩
          · exact Or.inl hin
          · refine Or.inr ⟨x, ?_, hx1, hx2⟩
            refine List.mem_cons_of_mem y ?_
            rw [hw1]
            exact List.mem_append.2 (Or.inr hxw)
        · cases w with
          | nil =>
            simp only [List.nil_append] at hw2
            rcases flattenAnnList_anc rest p anc [] e L2 hw2.symm a ha with
              hin | ⟨x, hxw, _, _⟩
            · exact Or.inl hin
            · exact absurd hxw (by simp)
          | cons w0 w1 =>
            have he : e = w0 := (List.cons.inj hw2).1
            have hA : flattenAnn child np (anc ++ [np]) = L1' ++ e :: w1 := by
              rw [hw1, he]
            rcases flattenAnn_anc child np (anc ++ [np]) L1' e w1 hA a ha with
              hin | ⟨x, hxw, hx1, hx2⟩
            · rcases List.mem_append.1 hin with hin2 | hin2
              · exact Or.inl hin2
              · have hanp : a = np := by simpa using hin2
                refine Or.inr ⟨(FileToDownload.mk "" np np, child, anc), ?_, ?_, hf⟩
                · rw [hy]
                  exact List.mem_cons_self _ _
                · rw [hanp]
            · refine Or.inr ⟨x, List.mem_cons_of_mem y hxw, hx1, hx2⟩
    · have heq' : ((FileToDownload.mk child.id
          (joinPath p (sanitizeFilename child.name)) "", child, anc) ::
          flattenAnnList rest p anc :
            List (FileToDownload × GDriveFile × List String)) = L1 ++ e :: L2 := by
        rw [← heq]
        simp only [flattenAnnList]
        rw [if_neg hf]
      cases L1 with
      | nil =>
        simp only [List.nil_append] at heq'
        have he := (List.cons.inj heq').1
        left
        rw [← he] at ha
        exact ha
      | cons y L1' =>
        have htail : flattenAnnList rest p anc = L1' ++ e :: L2 :=
          (List.cons.inj heq').2
        rcases flattenAnnList_anc rest p anc L1' e L2 htail a ha with
          hin | ⟨x, hxw, hx1, hx2⟩
        · exact Or.inl hin
        · exact Or.inr ⟨x, List.mem_cons_of_mem y hxw, hx1, hx2⟩
end

/-- Claim C7: flattening invariants.  The annotated walk projects onto the
code's flattening; under well-formedness each non-root node yields exactly
one entry (so none is emitted for the root itself); directory entries carry
an empty identifier and file entries their node's identifier; and every
ancestor-directory annotation of an entry names a directory entry that
appears strictly earlier in the sequence. -/
theorem C7_flatten_invariants (g : GDriveFile) (p : String) :
    ((flattenAnn g p []).map (fun x => x.1) = getDirectoryStructure g p) ∧
    (GDriveFile.wfb g = true →
      (getDirectoryStructure g p).length = GDriveFile.size g - 1) ∧
    (∀ x ∈ flattenAnn g p [],
      (x.2.1.IsFolder = true → x.1.id = "") ∧
      (x.2.1.IsFolder = false → x.1.id = x.2.1.id)) ∧
    (∀ L1 e L2, flattenAnn g p [] = L1 ++ e :: L2 →
      ∀ a ∈ e.2.2,
        ∃ x ∈ L1, x.1 = FileToDownload.mk "" a a ∧ x.2.1.IsFolder = true) := by
  refine ⟨flattenAnn_map g p [], ?_, fun x hx => flattenAnn_shape g p [] x hx, ?_⟩
  · intro hwf
    have h := gds_length_wf g p hwf
    omega
  · intro L1 e L2 heq a ha
    rcases flattenAnn_anc g p [] L1 e L2 heq a ha with hin | hx
    · exact absurd hin (by simp)
    · exact hx

/-- Witness for C7 at a concrete two-level tree: a subfolder containing one
file plus one top-level file. -/
theorem C7_flatten_invariants_witness :
    (getDirectoryStructure rootW "" =
      [FileToDownload.mk "" "Sub" "Sub", FileToDownload.mk "f1" "Sub/a.txt" "",
        FileToDownload.mk "f2" "b.txt" ""]) ∧
    GDriveFile.wfb rootW = true ∧
    (getDirectoryStructure rootW "").length = GDriveFile.size rootW - 1 ∧
    (∃ x ∈ [((FileToDownload.mk "" "Sub" "Sub" : FileToDownload), subW,
        ([] : List String))],
      x.1 = FileToDownload.mk "" "Sub" "Sub" ∧ x.2.1.IsFolder = true) := by
  have h := C7_flatten_invariants rootW ""
  refine ⟨by decide, by decide, h.2.1 (by decide), ?_⟩
  have heq : flattenAnn rootW "" [] =
      [((FileToDownload.mk "" "Sub" "Sub" : FileToDownload), subW,
        ([] : List String))] ++
      ((FileToDownload.mk "f1" "Sub/a.txt" "", fileW1, ["Sub"]) :
        FileToDownload × GDriveFile × List String) ::
      [((FileToDownload.mk "f2" "b.txt" "" : FileToDownload), fileW2,
        ([] : List String))] := by decide
  have hx := h.2.2.2 _ _ _ heq "Sub" (by decide)
  obtain ⟨x, hmem, h1, h2⟩ := hx
  exact ⟨x, hmem, h1, h2⟩

/-- Claim C10: ListFolder and DownloadFolder require exactly one of URL and
identifier: if both are empty or both non-empty they return the
argument error with the state (network and tracked filesystem) unchanged;
and a call with only the identifier equals the call with the canonical
folder URL derived from it. -/
theorem C10_folder_argument_check
    (resolve : String → DState → Except GErr GDriveFile × DState)
    (dl : String → String → DState → Except GErr String × DState)
    (cwd : String) (resume : Bool) (urlStr id output : String) (s : DState) :
    (((id = "" ∧ urlStr = "") ∨ (id ≠ "" ∧ urlStr ≠ "")) →
      ListFolder resolve urlStr id s =
        (.error (.other "either url or id must be specified"), s) ∧
      DownloadFolder resolve dl cwd resume urlStr id output s =
        (.error (.other "either url or id must be specified"), s)) ∧
    (id ≠ "" →
      ListFolder resolve "" id s = ListFolder resolve (folderUrlBase ++ id) "" s ∧
      DownloadFolder resolve dl cwd resume "" id output s =
        DownloadFolder resolve dl cwd resume (folderUrlBase ++ id) "" output s) := by
  constructor
  · intro hbad
    constructor
    · unfold ListFolder
      rw [if_pos hbad]
    · unfold DownloadFolder
      rw [if_pos hbad]
  · intro hid
    have hne : folderUrlBase ++ id ≠ "" := by
      intro hh
      have h2 : ('h' :: 't' :: 't' :: 'p' :: 's' :: ':' :: '/' :: '/' :: 'd' ::
          'r' :: 'i' :: 'v' :: 'e' :: '.' :: 'g' :: 'o' :: 'o' :: 'g' :: 'l' ::
          'e' :: '.' :: 'c' :: 'o' :: 'm' :: '/' :: 'd' :: 'r' :: 'i' :: 'v' ::
          'e' :: '/' :: 'f' :: 'o' :: 'l' :: 'd' :: 'e' :: 'r' :: 's' :: '/' ::
          id.data) = ([] : List Char) := congrArg String.data hh
      exact absurd h2 (by simp)
    have hcond1 : ¬((id = "" ∧ ("" : String) = "") ∨
        (id ≠ "" ∧ ("" : String) ≠ "")) := by
      rintro (⟨h1, _⟩ | ⟨_, h2⟩)
      · exact hid h1
      · exact h2 rfl
    have hcond2 : ¬((("" : String) = "" ∧ folderUrlBase ++ id = "") ∨
        (("" : String) ≠ "" ∧ folderUrlBase ++ id ≠ "")) := by
      rintro (⟨_, h1⟩ | ⟨h1, _⟩)
      · exact hne h1
      · exact h1 rfl
    constructor
    · unfold ListFolder
      rw [if_neg hcond1, if_neg hcond2, if_pos hid,
        if_neg (show ¬(("" : String) ≠ "") from fun hh => hh rfl)]
    · unfold DownloadFolder
      rw [if_neg hcond1, if_neg hcond2, if_pos hid,
        if_neg (show ¬(("" : String) ≠ "") from fun hh => hh rfl)]

/-- Witness for C10: both-empty arguments error without touching the state;
an id-only call equals the derived-URL call. -/
theorem C10_folder_argument_check_witness :
    (ListFolder (fun _ st => (.error .outOfFuel, st)) "" "" ⟨[], 0⟩ =
      (.error (.other "either url or id must be specified"), ⟨[], 0⟩)) ∧
    (DownloadFolder (fun _ st => (.error .outOfFuel, st))
      (fun _ _ st => (.error .outOfFuel, st)) "/cwd" false "u" "i" "" ⟨[], 0⟩ =
      (.error (.other "either url or id must be specified"), ⟨[], 0⟩)) ∧
    (ListFolder (fun _ st => (.error .outOfFuel, st)) "" "i" ⟨[], 0⟩ =
      ListFolder (fun _ st => (.error .outOfFuel, st)) (folderUrlBase ++ "i")
        "" ⟨[], 0⟩) ∧
    (DownloadFolder (fun _ st => (.error .outOfFuel, st))
      (fun _ _ st => (.error .outOfFuel, st)) "/cwd" false "" "i" "" ⟨[], 0⟩ =
      DownloadFolder (fun _ st => (.error .outOfFuel, st))
        (fun _ _ st => (.error .outOfFuel, st)) "/cwd" false
        (folderUrlBase ++ "i") "" "" ⟨[], 0⟩) := by
  refine ⟨?_, ?_, ?_, ?_⟩
  · exact ((C10_folder_argument_check (fun _ st => (.error .outOfFuel, st))
      (fun _ _ st => (.error .outOfFuel, st)) "/cwd" false "" "" "" ⟨[], 0⟩).1
      (Or.inl ⟨rfl, rfl⟩)).1
  · exact ((C10_folder_argument_check (fun _ st => (.error .outOfFuel, st))
      (fun _ _ st => (.error .outOfFuel, st)) "/cwd" false "u" "i" "" ⟨[], 0⟩).1
      (Or.inr ⟨by decide, by decide⟩)).2
  · exact ((C10_folder_argument_check (fun _ st => (.error .outOfFuel, st))
      (fun _ _ st => (.error .outOfFuel, st)) "/cwd" false "" "i" "" ⟨[], 0⟩).2
      (by decide)).1
  · exact ((C10_folder_argument_check (fun _ st => (.error .outOfFuel, st))
      (fun _ _ st => (.error .outOfFuel, st)) "/cwd" false "" "i" "" ⟨[], 0⟩).2
      (by decide)).2
